import Mathlib

set_option maxRecDepth 40000

/-!
Verification of the Egyptian national-ID extraction repository.

Shallow embedding of the Python sources:
  * `process_logic.py` — `normalize_digits`, `extract_national_id`,
    `detect_rotation_and_correct_image`, `detect_text_from_image`;
  * `process.py` — the second copy of the same functions;
  * `app.py` — the batch verification loop `process_from_excel_links`;
  * `test2photos.py` — `extract_full_name`.

Text is modelled as `List Char`.  The Python regexes used by the source
(`re.sub(r'\b\d{4}/\d{1,2}(/\d{1,2})?\b', ...)`, `re.search(r'\b([23]\d{13})\b', ...)`,
`re.findall(r'\d+', ...)`, `re.search(r'([23]\d{13})', ...)`) are embedded as
explicit scanners with Python's semantics: `\d` matches any Unicode decimal
digit (category Nd), `\b` is a word boundary where a word character is a
letter, a digit, or an underscore, a search returns the leftmost match, and
`re.sub` rescans from the end of each replaced match.
External effects (file reads, the Vision OCR service, HTTP downloads) are
modelled by explicit oracle records, and the observable actions of the code
(probe invocation, deletion of the corrected temporary artifact) are returned
as fields of an outcome record.
-/

/-! ### Character classes (Python `re` semantics)

The tables below are the exact code-point ranges of the character classes of
Python's `re` module for `str` patterns (Unicode database 14.0.0, CPython
3.11): `\d` matches the decimal digits (category `Nd`), `\w` matches the
alphanumeric characters (`str.isalnum`: categories L*, Nd, Nl, No) plus the
underscore, and `\s` matches the whitespace characters (identical to
`str.isspace`, which also governs `str.strip` and no-argument
`str.split`). -/

/-- The code-point ranges matched by Python's `\d` (Unicode category `Nd`);
`str.isdigit` agrees with this class on every character of these ranges. -/
def ndRanges : List (Nat × Nat) :=
  [(0x30, 0x39), (0x660, 0x669), (0x6F0, 0x6F9), (0x7C0, 0x7C9),
    (0x966, 0x96F), (0x9E6, 0x9EF), (0xA66, 0xA6F), (0xAE6, 0xAEF),
    (0xB66, 0xB6F), (0xBE6, 0xBEF), (0xC66, 0xC6F), (0xCE6, 0xCEF),
    (0xD66, 0xD6F), (0xDE6, 0xDEF), (0xE50, 0xE59), (0xED0, 0xED9),
    (0xF20, 0xF29), (0x1040, 0x1049), (0x1090, 0x1099), (0x17E0, 0x17E9),
    (0x1810, 0x1819), (0x1946, 0x194F), (0x19D0, 0x19D9), (0x1A80, 0x1A89),
    (0x1A90, 0x1A99), (0x1B50, 0x1B59), (0x1BB0, 0x1BB9), (0x1C40, 0x1C49),
    (0x1C50, 0x1C59), (0xA620, 0xA629), (0xA8D0, 0xA8D9), (0xA900, 0xA909),
    (0xA9D0, 0xA9D9), (0xA9F0, 0xA9F9), (0xAA50, 0xAA59), (0xABF0, 0xABF9),
    (0xFF10, 0xFF19), (0x104A0, 0x104A9), (0x10D30, 0x10D39),
    (0x11066, 0x1106F), (0x110F0, 0x110F9), (0x11136, 0x1113F),
    (0x111D0, 0x111D9), (0x112F0, 0x112F9), (0x11450, 0x11459),
    (0x114D0, 0x114D9), (0x11650, 0x11659), (0x116C0, 0x116C9),
    (0x11730, 0x11739), (0x118E0, 0x118E9), (0x11950, 0x11959),
    (0x11C50, 0x11C59), (0x11D50, 0x11D59), (0x11DA0, 0x11DA9),
    (0x16A60, 0x16A69), (0x16AC0, 0x16AC9), (0x16B50, 0x16B59),
    (0x1D7CE, 0x1D7FF), (0x1E140, 0x1E149), (0x1E2F0, 0x1E2F9),
    (0x1E950, 0x1E959), (0x1FBF0, 0x1FBF9)]

/-- Python's `\d`: a Unicode decimal digit. -/
def pyDigit (c : Char) : Bool :=
  ndRanges.any (fun p => decide (p.1 ≤ c.toNat) && decide (c.toNat ≤ p.2))

/-- The code-point ranges matched by Python's `\w` but not by `\d`:
the Unicode letters, the non-decimal numerics (categories Nl and No), and
the underscore. -/
def wordRestRanges : List (Nat × Nat) :=
  [(0x41, 0x5A), (0x5F, 0x5F), (0x61, 0x7A), (0xAA, 0xAA), (0xB2, 0xB3),
    (0xB5, 0xB5), (0xB9, 0xBA), (0xBC, 0xBE), (0xC0, 0xD6), (0xD8, 0xF6),
    (0xF8, 0x2C1), (0x2C6, 0x2D1), (0x2E0, 0x2E4), (0x2EC, 0x2EC),
    (0x2EE, 0x2EE), (0x370, 0x374), (0x376, 0x377), (0x37A, 0x37D),
    (0x37F, 0x37F), (0x386, 0x386), (0x388, 0x38A), (0x38C, 0x38C),
    (0x38E, 0x3A1), (0x3A3, 0x3F5), (0x3F7, 0x481), (0x48A, 0x52F),
    (0x531, 0x556), (0x559, 0x559), (0x560, 0x588), (0x5D0, 0x5EA),
    (0x5EF, 0x5F2), (0x620, 0x64A), (0x66E, 0x66F), (0x671, 0x6D3),
    (0x6D5, 0x6D5), (0x6E5, 0x6E6), (0x6EE, 0x6EF), (0x6FA, 0x6FC),
    (0x6FF, 0x6FF), (0x710, 0x710), (0x712, 0x72F), (0x74D, 0x7A5),
    (0x7B1, 0x7B1), (0x7CA, 0x7EA), (0x7F4, 0x7F5), (0x7FA, 0x7FA),
    (0x800, 0x815), (0x81A, 0x81A), (0x824, 0x824), (0x828, 0x828),
    (0x840, 0x858), (0x860, 0x86A), (0x870, 0x887), (0x889, 0x88E),
    (0x8A0, 0x8C9), (0x904, 0x939), (0x93D, 0x93D), (0x950, 0x950),
    (0x958, 0x961), (0x971, 0x980), (0x985, 0x98C), (0x98F, 0x990),
    (0x993, 0x9A8), (0x9AA, 0x9B0), (0x9B2, 0x9B2), (0x9B6, 0x9B9),
    (0x9BD, 0x9BD), (0x9CE, 0x9CE), (0x9DC, 0x9DD), (0x9DF, 0x9E1),
    (0x9F0, 0x9F1), (0x9F4, 0x9F9), (0x9FC, 0x9FC), (0xA05, 0xA0A),
    (0xA0F, 0xA10), (0xA13, 0xA28), (0xA2A, 0xA30), (0xA32, 0xA33),
    (0xA35, 0xA36), (0xA38, 0xA39), (0xA59, 0xA5C), (0xA5E, 0xA5E),
    (0xA72, 0xA74), (0xA85, 0xA8D), (0xA8F, 0xA91), (0xA93, 0xAA8),
    (0xAAA, 0xAB0), (0xAB2, 0xAB3), (0xAB5, 0xAB9), (0xABD, 0xABD),
    (0xAD0, 0xAD0), (0xAE0, 0xAE1), (0xAF9, 0xAF9), (0xB05, 0xB0C),
    (0xB0F, 0xB10), (0xB13, 0xB28), (0xB2A, 0xB30), (0xB32, 0xB33),
    (0xB35, 0xB39), (0xB3D, 0xB3D), (0xB5C, 0xB5D), (0xB5F, 0xB61),
    (0xB71, 0xB77), (0xB83, 0xB83), (0xB85, 0xB8A), (0xB8E, 0xB90),
    (0xB92, 0xB95), (0xB99, 0xB9A), (0xB9C, 0xB9C), (0xB9E, 0xB9F),
    (0xBA3, 0xBA4), (0xBA8, 0xBAA), (0xBAE, 0xBB9), (0xBD0, 0xBD0),
    (0xBF0, 0xBF2), (0xC05, 0xC0C), (0xC0E, 0xC10), (0xC12, 0xC28),
    (0xC2A, 0xC39), (0xC3D, 0xC3D), (0xC58, 0xC5A), (0xC5D, 0xC5D),
    (0xC60, 0xC61), (0xC78, 0xC7E), (0xC80, 0xC80), (0xC85, 0xC8C),
    (0xC8E, 0xC90), (0xC92, 0xCA8), (0xCAA, 0xCB3), (0xCB5, 0xCB9),
    (0xCBD, 0xCBD), (0xCDD, 0xCDE), (0xCE0, 0xCE1), (0xCF1, 0xCF2),
    (0xD04, 0xD0C), (0xD0E, 0xD10), (0xD12, 0xD3A), (0xD3D, 0xD3D),
    (0xD4E, 0xD4E), (0xD54, 0xD56), (0xD58, 0xD61), (0xD70, 0xD78),
    (0xD7A, 0xD7F), (0xD85, 0xD96), (0xD9A, 0xDB1), (0xDB3, 0xDBB),
    (0xDBD, 0xDBD), (0xDC0, 0xDC6), (0xE01, 0xE30), (0xE32, 0xE33),
    (0xE40, 0xE46), (0xE81, 0xE82), (0xE84, 0xE84), (0xE86, 0xE8A),
    (0xE8C, 0xEA3), (0xEA5, 0xEA5), (0xEA7, 0xEB0), (0xEB2, 0xEB3),
    (0xEBD, 0xEBD), (0xEC0, 0xEC4), (0xEC6, 0xEC6), (0xEDC, 0xEDF),
    (0xF00, 0xF00), (0xF2A, 0xF33), (0xF40, 0xF47), (0xF49, 0xF6C),
    (0xF88, 0xF8C), (0x1000, 0x102A), (0x103F, 0x103F), (0x1050, 0x1055),
    (0x105A, 0x105D), (0x1061, 0x1061), (0x1065, 0x1066), (0x106E, 0x1070),
    (0x1075, 0x1081), (0x108E, 0x108E), (0x10A0, 0x10C5), (0x10C7, 0x10C7),
    (0x10CD, 0x10CD), (0x10D0, 0x10FA), (0x10FC, 0x1248), (0x124A, 0x124D),
    (0x1250, 0x1256), (0x1258, 0x1258), (0x125A, 0x125D), (0x1260, 0x1288),
    (0x128A, 0x128D), (0x1290, 0x12B0), (0x12B2, 0x12B5), (0x12B8, 0x12BE),
    (0x12C0, 0x12C0), (0x12C2, 0x12C5), (0x12C8, 0x12D6), (0x12D8, 0x1310),
    (0x1312, 0x1315), (0x1318, 0x135A), (0x1369, 0x137C), (0x1380, 0x138F),
    (0x13A0, 0x13F5), (0x13F8, 0x13FD), (0x1401, 0x166C), (0x166F, 0x167F),
    (0x1681, 0x169A), (0x16A0, 0x16EA), (0x16EE, 0x16F8), (0x1700, 0x1711),
    (0x171F, 0x1731), (0x1740, 0x1751), (0x1760, 0x176C), (0x176E, 0x1770),
    (0x1780, 0x17B3), (0x17D7, 0x17D7), (0x17DC, 0x17DC), (0x17F0, 0x17F9),
    (0x1820, 0x1878), (0x1880, 0x1884), (0x1887, 0x18A8), (0x18AA, 0x18AA),
    (0x18B0, 0x18F5), (0x1900, 0x191E), (0x1950, 0x196D), (0x1970, 0x1974),
    (0x1980, 0x19AB), (0x19B0, 0x19C9), (0x19DA, 0x19DA), (0x1A00, 0x1A16),
    (0x1A20, 0x1A54), (0x1AA7, 0x1AA7), (0x1B05, 0x1B33), (0x1B45, 0x1B4C),
    (0x1B83, 0x1BA0), (0x1BAE, 0x1BAF), (0x1BBA, 0x1BE5), (0x1C00, 0x1C23),
    (0x1C4D, 0x1C4F), (0x1C5A, 0x1C7D), (0x1C80, 0x1C88), (0x1C90, 0x1CBA),
    (0x1CBD, 0x1CBF), (0x1CE9, 0x1CEC), (0x1CEE, 0x1CF3), (0x1CF5, 0x1CF6),
    (0x1CFA, 0x1CFA), (0x1D00, 0x1DBF), (0x1E00, 0x1F15), (0x1F18, 0x1F1D),
    (0x1F20, 0x1F45), (0x1F48, 0x1F4D), (0x1F50, 0x1F57), (0x1F59, 0x1F59),
    (0x1F5B, 0x1F5B), (0x1F5D, 0x1F5D), (0x1F5F, 0x1F7D), (0x1F80, 0x1FB4),
    (0x1FB6, 0x1FBC), (0x1FBE, 0x1FBE), (0x1FC2, 0x1FC4), (0x1FC6, 0x1FCC),
    (0x1FD0, 0x1FD3), (0x1FD6, 0x1FDB), (0x1FE0, 0x1FEC), (0x1FF2, 0x1FF4),
    (0x1FF6, 0x1FFC), (0x2070, 0x2071), (0x2074, 0x2079), (0x207F, 0x2089),
    (0x2090, 0x209C), (0x2102, 0x2102), (0x2107, 0x2107), (0x210A, 0x2113),
    (0x2115, 0x2115), (0x2119, 0x211D), (0x2124, 0x2124), (0x2126, 0x2126),
    (0x2128, 0x2128), (0x212A, 0x212D), (0x212F, 0x2139), (0x213C, 0x213F),
    (0x2145, 0x2149), (0x214E, 0x214E), (0x2150, 0x2189), (0x2460, 0x249B),
    (0x24EA, 0x24FF), (0x2776, 0x2793), (0x2C00, 0x2CE4), (0x2CEB, 0x2CEE),
    (0x2CF2, 0x2CF3), (0x2CFD, 0x2CFD), (0x2D00, 0x2D25), (0x2D27, 0x2D27),
    (0x2D2D, 0x2D2D), (0x2D30, 0x2D67), (0x2D6F, 0x2D6F), (0x2D80, 0x2D96),
    (0x2DA0, 0x2DA6), (0x2DA8, 0x2DAE), (0x2DB0, 0x2DB6), (0x2DB8, 0x2DBE),
    (0x2DC0, 0x2DC6), (0x2DC8, 0x2DCE), (0x2DD0, 0x2DD6), (0x2DD8, 0x2DDE),
    (0x2E2F, 0x2E2F), (0x3005, 0x3007), (0x3021, 0x3029), (0x3031, 0x3035),
    (0x3038, 0x303C), (0x3041, 0x3096), (0x309D, 0x309F), (0x30A1, 0x30FA),
    (0x30FC, 0x30FF), (0x3105, 0x312F), (0x3131, 0x318E), (0x3192, 0x3195),
    (0x31A0, 0x31BF), (0x31F0, 0x31FF), (0x3220, 0x3229), (0x3248, 0x324F),
    (0x3251, 0x325F), (0x3280, 0x3289), (0x32B1, 0x32BF), (0x3400, 0x4DBF),
    (0x4E00, 0xA48C), (0xA4D0, 0xA4FD), (0xA500, 0xA60C), (0xA610, 0xA61F),
    (0xA62A, 0xA62B), (0xA640, 0xA66E), (0xA67F, 0xA69D), (0xA6A0, 0xA6EF),
    (0xA717, 0xA71F), (0xA722, 0xA788), (0xA78B, 0xA7CA), (0xA7D0, 0xA7D1),
    (0xA7D3, 0xA7D3), (0xA7D5, 0xA7D9), (0xA7F2, 0xA801), (0xA803, 0xA805),
    (0xA807, 0xA80A), (0xA80C, 0xA822), (0xA830, 0xA835), (0xA840, 0xA873),
    (0xA882, 0xA8B3), (0xA8F2, 0xA8F7), (0xA8FB, 0xA8FB), (0xA8FD, 0xA8FE),
    (0xA90A, 0xA925), (0xA930, 0xA946), (0xA960, 0xA97C), (0xA984, 0xA9B2),
    (0xA9CF, 0xA9CF), (0xA9E0, 0xA9E4), (0xA9E6, 0xA9EF), (0xA9FA, 0xA9FE),
    (0xAA00, 0xAA28), (0xAA40, 0xAA42), (0xAA44, 0xAA4B), (0xAA60, 0xAA76),
    (0xAA7A, 0xAA7A), (0xAA7E, 0xAAAF), (0xAAB1, 0xAAB1), (0xAAB5, 0xAAB6),
    (0xAAB9, 0xAABD), (0xAAC0, 0xAAC0), (0xAAC2, 0xAAC2), (0xAADB, 0xAADD),
    (0xAAE0, 0xAAEA), (0xAAF2, 0xAAF4), (0xAB01, 0xAB06), (0xAB09, 0xAB0E),
    (0xAB11, 0xAB16), (0xAB20, 0xAB26), (0xAB28, 0xAB2E), (0xAB30, 0xAB5A),
    (0xAB5C, 0xAB69), (0xAB70, 0xABE2), (0xAC00, 0xD7A3), (0xD7B0, 0xD7C6),
    (0xD7CB, 0xD7FB), (0xF900, 0xFA6D), (0xFA70, 0xFAD9), (0xFB00, 0xFB06),
    (0xFB13, 0xFB17), (0xFB1D, 0xFB1D), (0xFB1F, 0xFB28), (0xFB2A, 0xFB36),
    (0xFB38, 0xFB3C), (0xFB3E, 0xFB3E), (0xFB40, 0xFB41), (0xFB43, 0xFB44),
    (0xFB46, 0xFBB1), (0xFBD3, 0xFD3D), (0xFD50, 0xFD8F), (0xFD92, 0xFDC7),
    (0xFDF0, 0xFDFB), (0xFE70, 0xFE74), (0xFE76, 0xFEFC), (0xFF21, 0xFF3A),
    (0xFF41, 0xFF5A), (0xFF66, 0xFFBE), (0xFFC2, 0xFFC7), (0xFFCA, 0xFFCF),
    (0xFFD2, 0xFFD7), (0xFFDA, 0xFFDC), (0x10000, 0x1000B),
    (0x1000D, 0x10026), (0x10028, 0x1003A), (0x1003C, 0x1003D),
    (0x1003F, 0x1004D), (0x10050, 0x1005D), (0x10080, 0x100FA),
    (0x10107, 0x10133), (0x10140, 0x10178), (0x1018A, 0x1018B),
    (0x10280, 0x1029C), (0x102A0, 0x102D0), (0x102E1, 0x102FB),
    (0x10300, 0x10323), (0x1032D, 0x1034A), (0x10350, 0x10375),
    (0x10380, 0x1039D), (0x103A0, 0x103C3), (0x103C8, 0x103CF),
    (0x103D1, 0x103D5), (0x10400, 0x1049D), (0x104B0, 0x104D3),
    (0x104D8, 0x104FB), (0x10500, 0x10527), (0x10530, 0x10563),
    (0x10570, 0x1057A), (0x1057C, 0x1058A), (0x1058C, 0x10592),
    (0x10594, 0x10595), (0x10597, 0x105A1), (0x105A3, 0x105B1),
    (0x105B3, 0x105B9), (0x105BB, 0x105BC), (0x10600, 0x10736),
    (0x10740, 0x10755), (0x10760, 0x10767), (0x10780, 0x10785),
    (0x10787, 0x107B0), (0x107B2, 0x107BA), (0x10800, 0x10805),
    (0x10808, 0x10808), (0x1080A, 0x10835), (0x10837, 0x10838),
    (0x1083C, 0x1083C), (0x1083F, 0x10855), (0x10858, 0x10876),
    (0x10879, 0x1089E), (0x108A7, 0x108AF), (0x108E0, 0x108F2),
    (0x108F4, 0x108F5), (0x108FB, 0x1091B), (0x10920, 0x10939),
    (0x10980, 0x109B7), (0x109BC, 0x109CF), (0x109D2, 0x10A00),
    (0x10A10, 0x10A13), (0x10A15, 0x10A17), (0x10A19, 0x10A35),
    (0x10A40, 0x10A48), (0x10A60, 0x10A7E), (0x10A80, 0x10A9F),
    (0x10AC0, 0x10AC7), (0x10AC9, 0x10AE4), (0x10AEB, 0x10AEF),
    (0x10B00, 0x10B35), (0x10B40, 0x10B55), (0x10B58, 0x10B72),
    (0x10B78, 0x10B91), (0x10BA9, 0x10BAF), (0x10C00, 0x10C48),
    (0x10C80, 0x10CB2), (0x10CC0, 0x10CF2), (0x10CFA, 0x10D23),
    (0x10E60, 0x10E7E), (0x10E80, 0x10EA9), (0x10EB0, 0x10EB1),
    (0x10F00, 0x10F27), (0x10F30, 0x10F45), (0x10F51, 0x10F54),
    (0x10F70, 0x10F81), (0x10FB0, 0x10FCB), (0x10FE0, 0x10FF6),
    (0x11003, 0x11037), (0x11052, 0x11065), (0x11071, 0x11072),
    (0x11075, 0x11075), (0x11083, 0x110AF), (0x110D0, 0x110E8),
    (0x11103, 0x11126), (0x11144, 0x11144), (0x11147, 0x11147),
    (0x11150, 0x11172), (0x11176, 0x11176), (0x11183, 0x111B2),
    (0x111C1, 0x111C4), (0x111DA, 0x111DA), (0x111DC, 0x111DC),
    (0x111E1, 0x111F4), (0x11200, 0x11211), (0x11213, 0x1122B),
    (0x11280, 0x11286), (0x11288, 0x11288), (0x1128A, 0x1128D),
    (0x1128F, 0x1129D), (0x1129F, 0x112A8), (0x112B0, 0x112DE),
    (0x11305, 0x1130C), (0x1130F, 0x11310), (0x11313, 0x11328),
    (0x1132A, 0x11330), (0x11332, 0x11333), (0x11335, 0x11339),
    (0x1133D, 0x1133D), (0x11350, 0x11350), (0x1135D, 0x11361),
    (0x11400, 0x11434), (0x11447, 0x1144A), (0x1145F, 0x11461),
    (0x11480, 0x114AF), (0x114C4, 0x114C5), (0x114C7, 0x114C7),
    (0x11580, 0x115AE), (0x115D8, 0x115DB), (0x11600, 0x1162F),
    (0x11644, 0x11644), (0x11680, 0x116AA), (0x116B8, 0x116B8),
    (0x11700, 0x1171A), (0x1173A, 0x1173B), (0x11740, 0x11746),
    (0x11800, 0x1182B), (0x118A0, 0x118DF), (0x118EA, 0x118F2),
    (0x118FF, 0x11906), (0x11909, 0x11909), (0x1190C, 0x11913),
    (0x11915, 0x11916), (0x11918, 0x1192F), (0x1193F, 0x1193F),
    (0x11941, 0x11941), (0x119A0, 0x119A7), (0x119AA, 0x119D0),
    (0x119E1, 0x119E1), (0x119E3, 0x119E3), (0x11A00, 0x11A00),
    (0x11A0B, 0x11A32), (0x11A3A, 0x11A3A), (0x11A50, 0x11A50),
    (0x11A5C, 0x11A89), (0x11A9D, 0x11A9D), (0x11AB0, 0x11AF8),
    (0x11C00, 0x11C08), (0x11C0A, 0x11C2E), (0x11C40, 0x11C40),
    (0x11C5A, 0x11C6C), (0x11C72, 0x11C8F), (0x11D00, 0x11D06),
    (0x11D08, 0x11D09), (0x11D0B, 0x11D30), (0x11D46, 0x11D46),
    (0x11D60, 0x11D65), (0x11D67, 0x11D68), (0x11D6A, 0x11D89),
    (0x11D98, 0x11D98), (0x11EE0, 0x11EF2), (0x11FB0, 0x11FB0),
    (0x11FC0, 0x11FD4), (0x12000, 0x12399), (0x12400, 0x1246E),
    (0x12480, 0x12543), (0x12F90, 0x12FF0), (0x13000, 0x1342E),
    (0x14400, 0x14646), (0x16800, 0x16A38), (0x16A40, 0x16A5E),
    (0x16A70, 0x16ABE), (0x16AD0, 0x16AED), (0x16B00, 0x16B2F),
    (0x16B40, 0x16B43), (0x16B5B, 0x16B61), (0x16B63, 0x16B77),
    (0x16B7D, 0x16B8F), (0x16E40, 0x16E96), (0x16F00, 0x16F4A),
    (0x16F50, 0x16F50), (0x16F93, 0x16F9F), (0x16FE0, 0x16FE1),
    (0x16FE3, 0x16FE3), (0x17000, 0x187F7), (0x18800, 0x18CD5),
    (0x18D00, 0x18D08), (0x1AFF0, 0x1AFF3), (0x1AFF5, 0x1AFFB),
    (0x1AFFD, 0x1AFFE), (0x1B000, 0x1B122), (0x1B150, 0x1B152),
    (0x1B164, 0x1B167), (0x1B170, 0x1B2FB), (0x1BC00, 0x1BC6A),
    (0x1BC70, 0x1BC7C), (0x1BC80, 0x1BC88), (0x1BC90, 0x1BC99),
    (0x1D2E0, 0x1D2F3), (0x1D360, 0x1D378), (0x1D400, 0x1D454),
    (0x1D456, 0x1D49C), (0x1D49E, 0x1D49F), (0x1D4A2, 0x1D4A2),
    (0x1D4A5, 0x1D4A6), (0x1D4A9, 0x1D4AC), (0x1D4AE, 0x1D4B9),
    (0x1D4BB, 0x1D4BB), (0x1D4BD, 0x1D4C3), (0x1D4C5, 0x1D505),
    (0x1D507, 0x1D50A), (0x1D50D, 0x1D514), (0x1D516, 0x1D51C),
    (0x1D51E, 0x1D539), (0x1D53B, 0x1D53E), (0x1D540, 0x1D544),
    (0x1D546, 0x1D546), (0x1D54A, 0x1D550), (0x1D552, 0x1D6A5),
    (0x1D6A8, 0x1D6C0), (0x1D6C2, 0x1D6DA), (0x1D6DC, 0x1D6FA),
    (0x1D6FC, 0x1D714), (0x1D716, 0x1D734), (0x1D736, 0x1D74E),
    (0x1D750, 0x1D76E), (0x1D770, 0x1D788), (0x1D78A, 0x1D7A8),
    (0x1D7AA, 0x1D7C2), (0x1D7C4, 0x1D7CB), (0x1DF00, 0x1DF1E),
    (0x1E100, 0x1E12C), (0x1E137, 0x1E13D), (0x1E14E, 0x1E14E),
    (0x1E290, 0x1E2AD), (0x1E2C0, 0x1E2EB), (0x1E7E0, 0x1E7E6),
    (0x1E7E8, 0x1E7EB), (0x1E7ED, 0x1E7EE), (0x1E7F0, 0x1E7FE),
    (0x1E800, 0x1E8C4), (0x1E8C7, 0x1E8CF), (0x1E900, 0x1E943),
    (0x1E94B, 0x1E94B), (0x1EC71, 0x1ECAB), (0x1ECAD, 0x1ECAF),
    (0x1ECB1, 0x1ECB4), (0x1ED01, 0x1ED2D), (0x1ED2F, 0x1ED3D),
    (0x1EE00, 0x1EE03), (0x1EE05, 0x1EE1F), (0x1EE21, 0x1EE22),
    (0x1EE24, 0x1EE24), (0x1EE27, 0x1EE27), (0x1EE29, 0x1EE32),
    (0x1EE34, 0x1EE37), (0x1EE39, 0x1EE39), (0x1EE3B, 0x1EE3B),
    (0x1EE42, 0x1EE42), (0x1EE47, 0x1EE47), (0x1EE49, 0x1EE49),
    (0x1EE4B, 0x1EE4B), (0x1EE4D, 0x1EE4F), (0x1EE51, 0x1EE52),
    (0x1EE54, 0x1EE54), (0x1EE57, 0x1EE57), (0x1EE59, 0x1EE59),
    (0x1EE5B, 0x1EE5B), (0x1EE5D, 0x1EE5D), (0x1EE5F, 0x1EE5F),
    (0x1EE61, 0x1EE62), (0x1EE64, 0x1EE64), (0x1EE67, 0x1EE6A),
    (0x1EE6C, 0x1EE72), (0x1EE74, 0x1EE77), (0x1EE79, 0x1EE7C),
    (0x1EE7E, 0x1EE7E), (0x1EE80, 0x1EE89), (0x1EE8B, 0x1EE9B),
    (0x1EEA1, 0x1EEA3), (0x1EEA5, 0x1EEA9), (0x1EEAB, 0x1EEBB),
    (0x1F100, 0x1F10C), (0x20000, 0x2A6DF), (0x2A700, 0x2B738),
    (0x2B740, 0x2B81D), (0x2B820, 0x2CEA1), (0x2CEB0, 0x2EBE0),
    (0x2F800, 0x2FA1D), (0x30000, 0x3134A)]

/-- Python's `\w` (the word-character class deciding `\b` boundaries):
a decimal digit, or a letter / non-decimal numeric / underscore. -/
def pyWordChar (c : Char) : Bool :=
  pyDigit c ||
    wordRestRanges.any (fun p => decide (p.1 ≤ c.toNat) && decide (c.toNat ≤ p.2))

/-- The code-point ranges of Python's `\s`, identical to `str.isspace`
(which also drives `str.strip` and no-argument `str.split`). -/
def spaceRanges : List (Nat × Nat) :=
  [(0x9, 0xD), (0x1C, 0x20), (0x85, 0x85), (0xA0, 0xA0), (0x1680, 0x1680),
    (0x2000, 0x200A), (0x2028, 0x2029), (0x202F, 0x202F), (0x205F, 0x205F),
    (0x3000, 0x3000)]

/-- Python whitespace (`\s`, `str.isspace`, `str.strip`, `str.split`). -/
def pySpace (c : Char) : Bool :=
  spaceRanges.any (fun p => decide (p.1 ≤ c.toNat) && decide (c.toNat ≤ p.2))

/-! ### `normalize_digits` (process_logic.py lines 78-87) -/

/-- The `numeral_map` dictionary of `normalize_digits`: Eastern Arabic-Indic
digits (U+0660–U+0669) and Extended Arabic-Indic / Persian digits
(U+06F0–U+06F9), each mapped to its Western digit. -/
def numeralPairs : List (Char × Char) :=
  [('٠', '0'), ('١', '1'), ('٢', '2'), ('٣', '3'), ('٤', '4'),
   ('٥', '5'), ('٦', '6'), ('٧', '7'), ('٨', '8'), ('٩', '9'),
   ('۰', '0'), ('۱', '1'), ('۲', '2'), ('۳', '3'), ('۴', '4'),
   ('۵', '5'), ('۶', '6'), ('۷', '7'), ('۸', '8'), ('۹', '9')]

/-- The domain of the translation table. -/
def numeralKeys : List Char := numeralPairs.map Prod.fst

/-- Per-character action of `str.translate` with `numeral_map`: a mapped
character is replaced, every other character passes through unchanged. -/
def normDigit (c : Char) : Char := (numeralPairs.lookup c).getD c

/-- `normalize_digits` (process_logic.py): translate every character through
the numeral map.  The `if not text: return ""` guard agrees with mapping over
the empty list. -/
def normalize_digits (l : List Char) : List Char := l.map normDigit

/-- `normalize_digits` as written in process.py lines 68-80 — the identical
translation table; the two copies differ only in their docstrings. -/
def normalize_digits_process (l : List Char) : List Char := l.map normDigit

/-! ### The date-stripping regex `\b\d{4}/\d{1,2}(/\d{1,2})?\b`
(process_logic.py line 94, process.py line 94) -/

/-- Trailing `\b` after a digit: holds at end of text or before a non-word
character. -/
def bAfter (l : List Char) : Bool :=
  match l with
  | [] => true
  | c :: _ => !pyWordChar c

/-- `\d{n}` with exact count: split off `n` leading digits. -/
def takeDigits : Nat → List Char → Option (List Char × List Char)
  | 0, l => some ([], l)
  | _ + 1, [] => none
  | n + 1, c :: rest =>
    if pyDigit c then
      match takeDigits n rest with
      | some (ds, r) => some (c :: ds, r)
      | none => none
    else none

/-- The suffix `(/\d{1,2})?\b` of the date regex, with Python's greedy
backtracking priority (two day digits, then one, then the group absent),
applied to the text following the month digits.  Returns the number of
characters the group consumes.  A one-digit alternative whose successor is a
digit can never satisfy the trailing `\b`, so those branches are collapsed. -/
def dateOptTail (l : List Char) : Option Nat :=
  match l with
  | c :: d1 :: rest =>
    if c == '/' && pyDigit d1 then
      match rest with
      | d2 :: rest2 =>
        if pyDigit d2 then
          if bAfter rest2 then some 3
          else if bAfter l then some 0 else none
        else
          if bAfter rest then some 2
          else if bAfter l then some 0 else none
      | [] => some 2
    else if bAfter l then some 0 else none
  | _ => if bAfter l then some 0 else none

/-- The suffix `\d{1,2}(/\d{1,2})?\b` of the date regex applied to the text
after the `YYYY/` prefix: greedy month digits, then the optional day group.
When two month digits are followed by a third digit, neither month
alternative can reach a word boundary, so the match fails. -/
def dateAfterSlash (l : List Char) : Option Nat :=
  match l with
  | [] => none
  | d1 :: rest =>
    if pyDigit d1 then
      match rest with
      | [] => some 1
      | d2 :: rest2 =>
        if pyDigit d2 then
          match dateOptTail rest2 with
          | some k => some (2 + k)
          | none => none
        else
          match dateOptTail rest with
          | some k => some (1 + k)
          | none => none
    else none

/-- Attempt of the whole date regex at the current position (the leading `\b`
is checked by the caller): `\d{4}` then `/` then the month/day suffix.
Returns the total length of the match. -/
def dateMatchLen (l : List Char) : Option Nat :=
  match l with
  | y1 :: y2 :: y3 :: y4 :: s :: rest =>
    if pyDigit y1 && pyDigit y2 && pyDigit y3 && pyDigit y4 && s == '/' then
      match dateAfterSlash rest with
      | some k => some (5 + k)
      | none => none
    else none
  | _ => none

/-- Shape of the text that follows a `/` inside a date match: a one- or
two-digit group followed by a word boundary or by another `/`.  Every slash
of a matched date token is followed by such a group, which is what makes a
match unable to reach backwards across a `/` boundary character. -/
def grpOk (l : List Char) : Prop :=
  ∃ e ds rest2, (e = 1 ∨ e = 2) ∧ takeDigits e l = some (ds, rest2) ∧
    (bAfter rest2 = true ∨ rest2.head? = some '/')

/-- Scanner of `re.sub(date_pattern, '', text)`: walk the text left to right
carrying whether the previous character was a word character (for `\b`); at
each boundary position try the date pattern, drop the matched characters and
resume after the match (whose last character is always a digit, hence a word
character).  `fuel` is an upper bound on the remaining length; it never runs
out when initialized with the length of the text. -/
def stripDatesAux : Nat → Bool → List Char → List Char
  | _, _, [] => []
  | 0, _, l => l
  | fuel + 1, true, c :: rest => c :: stripDatesAux fuel (pyWordChar c) rest
  | fuel + 1, false, c :: rest =>
    match dateMatchLen (c :: rest) with
    | some k => stripDatesAux fuel true (List.drop (k - 1) rest)
    | none => c :: stripDatesAux fuel (pyWordChar c) rest

/-- `cleaned_text = re.sub(r'\b\d{4}/\d{1,2}(/\d{1,2})?\b', '', processed_text)`. -/
def stripDates (l : List Char) : List Char := stripDatesAux l.length false l

/-! ### Strategy A: `re.search(r'\b([23]\d{13})\b', cleaned_text)`
(process_logic.py line 96, process.py line 98) -/

/-- Scanner of `re.search(r'\b([23]\d{13})\b', l)`: leftmost position whose
previous character is not a word character, whose character is `2` or `3`,
followed by thirteen digits and a trailing word boundary. -/
def findStandalone14 : Bool → List Char → Option (List Char)
  | _, [] => none
  | true, c :: rest => findStandalone14 (pyWordChar c) rest
  | false, c :: rest =>
    if c = '2' ∨ c = '3' then
      match takeDigits 13 rest with
      | some (ds, rest2) =>
        if bAfter rest2 then some (c :: ds)
        else findStandalone14 (pyWordChar c) rest
      | none => findStandalone14 (pyWordChar c) rest
    else findStandalone14 (pyWordChar c) rest

/-! ### `re.findall(r'\d+', text)` — maximal digit runs -/

/-- Maximal runs of characters satisfying `p`, fuel-bounded (the fuel never
runs out when initialized with the length of the text). -/
def runsByAux (p : Char → Bool) : Nat → List Char → List (List Char)
  | _, [] => []
  | 0, _ => []
  | fuel + 1, c :: rest =>
    if p c then (c :: rest.takeWhile p) :: runsByAux p fuel (rest.dropWhile p)
    else runsByAux p fuel rest

/-- Maximal runs of characters satisfying `p`, in order of occurrence. -/
def runsBy (p : Char → Bool) (l : List Char) : List (List Char) :=
  runsByAux p l.length l

/-- `re.findall(r'\d+', l)`: the maximal digit runs of `l`, left to right. -/
def digitRuns (l : List Char) : List (List Char) := runsBy pyDigit l

/-! ### Strategy B: two adjacent 7-digit runs
(process_logic.py lines 100-105, process.py lines 104-110) -/

/-- `str.startswith(('2', '3'))`. -/
def head23 : List Char → Bool
  | c :: _ => c == '2' || c == '3'
  | [] => false

/-- The Strategy B loop: scan adjacent pairs of digit runs in order; when two
consecutive runs have exactly 7 digits each and their concatenation starts
with `2` or `3`, return the concatenation; otherwise keep scanning. -/
def strategyB : List (List Char) → Option (List Char)
  | a :: b :: rest =>
    if a.length = 7 ∧ b.length = 7 then
      if head23 (a ++ b) then some (a ++ b) else strategyB (b :: rest)
    else strategyB (b :: rest)
  | _ => none

/-! ### Strategy C: `re.search(r'([23]\d{13})', num_seq)` inside runs longer
than 14 (process_logic.py lines 107-112, process.py lines 114-121) -/

/-- `re.search(r'([23]\d{13})', l)` without boundary anchors: leftmost
position holding `2` or `3` followed by thirteen digits. -/
def searchEmbedded : List Char → Option (List Char)
  | [] => none
  | c :: rest =>
    if c = '2' ∨ c = '3' then
      match takeDigits 13 rest with
      | some (ds, _) => some (c :: ds)
      | none => searchEmbedded rest
    else searchEmbedded rest

/-- The Strategy C loop: for each digit run of the (date-unstripped)
normalized text, in order, if the run is longer than 14 characters search it
for an embedded ID; return the first hit. -/
def strategyC : List (List Char) → Option (List Char)
  | [] => none
  | r :: rest =>
    if 14 < r.length then
      match searchEmbedded r with
      | some v => some v
      | none => strategyC rest
    else strategyC rest

/-! ### `extract_national_id` (process_logic.py lines 89-114) -/

/-- `extract_national_id` of process_logic.py: normalize numerals, strip date
tokens, then run Strategies A, B, C in order, returning the first success. -/
def extract_national_id (text : List Char) : Option (List Char) :=
  if text = [] then none
  else
    let processed := normalize_digits text
    let cleaned := stripDates processed
    match findStandalone14 false cleaned with
    | some v => some v
    | none =>
      match strategyB (digitRuns cleaned) with
      | some v => some v
      | none => strategyC (digitRuns processed)

/-- `extract_national_id` as written in process.py lines 82-124: the same
normalization, the same date-stripping regex, and the same three strategies;
the two copies differ only in comments and `print` calls. -/
def extract_national_id_process (text : List Char) : Option (List Char) :=
  if text = [] then none
  else
    let processed := normalize_digits_process text
    let cleaned := stripDates processed
    match findStandalone14 false cleaned with
    | some v => some v
    | none =>
      match strategyB (digitRuns cleaned) with
      | some v => some v
      | none => strategyC (digitRuns processed)

/-- The date-stripped text Strategies A and B operate on. -/
def cleanedOf (text : List Char) : List Char := stripDates (normalize_digits text)

/-! ### Orientation corrector (`detect_rotation_and_correct_image`,
process_logic.py lines 22-51 and process.py lines 21-45) -/

/-- Outcome of the external collaborators used by the orientation corrector:
the coarse `text_detection` probe geometry and the PIL save step.
`hasRegions` models `response.text_annotations` being nonempty, `hasVertices`
the first region's polygon being nonempty, `tiltExceeds45` the
floating-point test `abs(angle) > 45` on the first two vertices, and
`saveOk` the PIL open/rotate/save completing without an exception. -/
structure VisionProbe where
  hasRegions : Bool
  hasVertices : Bool
  tiltExceeds45 : Bool
  saveOk : Bool

/-- Reference returned by the orientation corrector: the original path or a
freshly written corrected artifact. -/
inductive RotResult
  | original
  | corrected
deriving DecidableEq

/-- Observable outcome of the orientation corrector: whether the OCR
text-detection probe was invoked, and which reference was returned. -/
structure RotOutcome where
  probeCalled : Bool
  result : RotResult
deriving DecidableEq

/-- `detect_rotation_and_correct_image` of process_logic.py.  `content` is
the bytes read from the image file (`none` when the read raises, which the
surrounding `try` turns into returning the original).  The `‼️ FIX` guard
returns the original reference on empty content before any API call; the
probe is invoked otherwise, and a corrected artifact is produced only when a
region with vertices is detected, the tilt exceeds 45 degrees, and the
rotated save succeeds (any exception is caught, returning the original). -/
def detect_rotation_and_correct_image_logic
    (content : Option (List Nat)) (probe : VisionProbe) : RotOutcome :=
  match content with
  | none => { probeCalled := false, result := RotResult.original }
  | some bytes =>
    if bytes = [] then { probeCalled := false, result := RotResult.original }
    else
      { probeCalled := true,
        result :=
          if probe.hasRegions && probe.hasVertices && probe.tiltExceeds45
              && probe.saveOk
          then RotResult.corrected else RotResult.original }

/-- `detect_rotation_and_correct_image` of process.py lines 21-45: the same
function without the empty-content guard — the probe is invoked for any
successfully read content, empty or not. -/
def detect_rotation_and_correct_image_process
    (content : Option (List Nat)) (probe : VisionProbe) : RotOutcome :=
  match content with
  | none => { probeCalled := false, result := RotResult.original }
  | some _ =>
    { probeCalled := true,
      result :=
        if probe.hasRegions && probe.hasVertices && probe.tiltExceeds45
            && probe.saveOk
        then RotResult.corrected else RotResult.original }

/-! ### `detect_text_from_image` (process_logic.py lines 53-76,
process.py lines 47-65) -/

/-- External outcomes seen by `detect_text_from_image`: the rotation step's
oracle inputs, the read of the (possibly corrected) file (`none` models the
read raising), the document OCR call, and whether the corrected artifact
exists at cleanup time. -/
structure TextDetectEnv where
  rotContent : Option (List Nat)
  probe : VisionProbe
  readBack : Option (List Nat)
  ocrError : Bool
  ocrText : Option (List Char)
  correctedExists : Bool

/-- Observable outcome of `detect_text_from_image`: the returned text and
whether `os.remove` was executed on the corrected artifact. -/
structure TextDetectOutcome where
  text : Option (List Char)
  removedCorrected : Bool
deriving DecidableEq

/-- `detect_text_from_image` of process_logic.py: run orientation correction,
re-read the resulting path (returning `None` if the read raises), return
`None` on empty content or on an OCR service error, otherwise take the text;
the corrected artifact is removed only at the single final return, when the
corrected path differs from the original and still exists. -/
def detect_text_from_image (env : TextDetectEnv) : TextDetectOutcome :=
  let rot := detect_rotation_and_correct_image_logic env.rotContent env.probe
  match env.readBack with
  | none => { text := none, removedCorrected := false }
  | some content =>
    if content = [] then { text := none, removedCorrected := false }
    else if env.ocrError then { text := none, removedCorrected := false }
    else
      { text := env.ocrText,
        removedCorrected :=
          decide (rot.result = RotResult.corrected) && env.correctedExists }

/-! ### Batch verification pipeline (`process_from_excel_links`,
app.py lines 75-114) -/

/-- Outcome of `download_image` for one row: success, or failure with the
message interpolated into `"Download Failed: {message}"`. -/
inductive DownloadOutcome
  | success
  | failure (message : List Char)

/-- One input row as seen by the loop of `process_from_excel_links` (the
Excel ingestion and the HTTP download are external collaborators; their
outcomes for this row are oracle fields). `ocrText` is what
`detect_text_from_image` returns for the downloaded image. -/
structure RowInput where
  rowId : List Char
  nationalityId : List Char
  download : DownloadOutcome
  ocrText : Option (List Char)

/-- One entry of the `results` list built by `process_from_excel_links`.
`extracted` is `none` exactly when the Python variable `extracted_id` is
`None`. -/
structure ResultRecord where
  excelRowId : List Char
  excelNationalityId : List Char
  extracted : Option (List Char)
  isMatch : Bool
  imagePath : Option (List Char)

/-- The file name `f"row_{index + 2}.jpg"` used for the downloaded image. -/
def rowFileName (idx : Nat) : List Char :=
  "row_".data ++ (Nat.repr (idx + 2)).data ++ ".jpg".data

/-- The loop body of `process_from_excel_links` for the row at dataframe
index `idx`: on download failure the result carries the failure marker and
`is_match` stays `False`; on success the text is OCRed and the ID extracted
(`"Extraction Failed"` when no text came back), and `is_match` is the exact
string comparison with the expected ID. -/
def processRow (idx : Nat) (r : RowInput) : ResultRecord :=
  match r.download with
  | DownloadOutcome.failure msg =>
    { excelRowId := r.rowId,
      excelNationalityId := r.nationalityId,
      extracted := some ("Download Failed: ".data ++ msg),
      isMatch := false,
      imagePath := none }
  | DownloadOutcome.success =>
    let extracted : Option (List Char) :=
      match r.ocrText with
      | some t => if t = [] then some "Extraction Failed".data
                  else extract_national_id t
      | none => some "Extraction Failed".data
    { excelRowId := r.rowId,
      excelNationalityId := r.nationalityId,
      extracted := extracted,
      isMatch := decide (extracted = some r.nationalityId),
      imagePath := some (rowFileName idx) }

/-- The `for index, row in df.iterrows(): ... results.append(...)` loop of
`process_from_excel_links`: strictly sequential, append-only, one result per
input row, never terminating early. -/
def process_from_excel_links (rows : List RowInput) : List ResultRecord :=
  rows.enum.map (fun p => processRow p.1 p.2)

/-! ### `extract_full_name` (test2photos.py lines 67-96) -/

/-- `text.split('\n')`. -/
def splitNl : List Char → List (List Char)
  | [] => [[]]
  | c :: rest =>
    if c = '\n' then [] :: splitNl rest
    else
      match splitNl rest with
      | h :: t => (c :: h) :: t
      | [] => [[c]]

/-- `str.strip()`: remove leading and trailing whitespace. -/
def pyStrip (l : List Char) : List Char :=
  ((l.dropWhile pySpace).reverse.dropWhile pySpace).reverse

/-- `str.split()` with no argument: maximal non-whitespace runs. -/
def pySplitWs (l : List Char) : List (List Char) :=
  runsBy (fun c => !pySpace c) l

/-- A character of the regex class `[؀-ۿ\s]`. -/
def arabicOrSpace (c : Char) : Bool :=
  (decide (0x600 ≤ c.toNat) && decide (c.toNat ≤ 0x6FF)) || pySpace c

/-- The `is_valid_name` test of `extract_full_name`: 2–4 whitespace-separated
tokens, a full match of `[؀-ۿ\s]+`, and no digit character. -/
def isValidName (l : List Char) : Bool :=
  decide (2 ≤ (pySplitWs l).length) && decide ((pySplitWs l).length ≤ 4) &&
  !l.isEmpty && l.all arabicOrSpace && !(l.any pyDigit)

/-- Whether `pat` is a leading segment of `l` (`str.startswith`). -/
def startsWithSeq : List Char → List Char → Bool
  | [], _ => true
  | _ :: _, [] => false
  | a :: as, b :: bs => a == b && startsWithSeq as bs

/-- Python's `pat in l` substring test. -/
def containsPhrase (pat : List Char) : List Char → Bool
  | [] => pat.isEmpty
  | b :: bs => startsWithSeq pat (b :: bs) || containsPhrase pat bs

/-- The header phrase `"بطاقة تحقيق الشخصية"` anchoring name extraction. -/
def headerPhrase : List Char := "بطاقة تحقيق الشخصية".data

/-- One iteration of the candidate loop of `extract_full_name`: if line `i`
exists, strip it and keep it when `is_valid_name` holds. -/
def nameCandidate (lines : List (List Char)) (i : Nat) : Option (List Char) :=
  if i < lines.length then
    if isValidName (pyStrip (lines.getD i [])) then
      some (pyStrip (lines.getD i []))
    else none
  else none

/-- `extract_full_name` of test2photos.py: find the first line containing the
header phrase; examine the following one or two lines (when they exist),
stripped; return the first that passes `is_valid_name`, else `None`. -/
def extract_full_name (text : List Char) : Option (List Char) :=
  if text = [] then none
  else
    match (splitNl text).findIdx? (fun ln => containsPhrase headerPhrase ln) with
    | none => none
    | some h =>
      match nameCandidate (splitNl text) (h + 1) with
      | some c => some c
      | none => nameCandidate (splitNl text) (h + 2)

/-! ### Property vocabulary for the theorems -/

/-- Shape of an ID match of `[23]\d{13}`: a `2` or `3` followed by thirteen
decimal digits. -/
def matches14 (v : List Char) : Prop :=
  ∃ c ds, v = c :: ds ∧ (c = '2' ∨ c = '3') ∧ ds.length = 13 ∧
    ds.all pyDigit = true

/-- The leading `\b` of a standalone match, relative to the text `a`
preceding the match and the word-ness `pw` of the character before the
scanned text: the match must be at the very start with no preceding word
character, or directly after a non-word character. -/
def boundaryOk (pw : Bool) (a : List Char) : Prop :=
  match a.getLast? with
  | none => pw = false
  | some x => pyWordChar x = false

/-- A standalone word-bounded occurrence of `[23]\d{13}` somewhere in `l`
(scanned with initial word-state `pw`): the text splits as `a ++ v ++ b`
where `v` matches, the left word boundary holds, and the first character of
`b` (if any) is not a word character. -/
def StandaloneWitness (pw : Bool) (l : List Char) : Prop :=
  ∃ a v b, l = a ++ v ++ b ∧ matches14 v ∧ boundaryOk pw a ∧ bAfter b = true

/-- Placeholder input row (default for `List.getD`). -/
def blankRow : RowInput :=
  { rowId := [], nationalityId := [], download := DownloadOutcome.success,
    ocrText := none }

/-- Placeholder result record (default for `List.getD`). -/
def blankResult : ResultRecord :=
  { excelRowId := [], excelNationalityId := [], extracted := none,
    isMatch := false, imagePath := none }

/-! ## Lemmas about the numeral translation table -/

theorem lookup_none_of_keys {ps : List (Char × Char)} {c : Char}
    (h : ∀ p ∈ ps, p.1 ≠ c) : List.lookup c ps = none := by
  induction ps with
  | nil => rfl
  | cons p ps ih =>
    obtain ⟨k, v⟩ := p
    have hk : k ≠ c := h (k, v) (List.mem_cons_self _ _)
    have hbeq : (c == k) = false := beq_eq_false_iff_ne.mpr (fun e => hk e.symm)
    simp only [List.lookup, hbeq]
    exact ih (fun q hq => h q (List.mem_cons_of_mem _ hq))

theorem normDigit_eq_of_not_mem {c : Char} (h : c ∉ numeralKeys) :
    normDigit c = c := by
  have hl : List.lookup c numeralPairs = none := by
    refine lookup_none_of_keys (fun p hp he => h ?_)
    exact he ▸ List.mem_map_of_mem Prod.fst hp
  simp [normDigit, hl]

theorem normDigit_isDigit_of_mem {c : Char} (h : c ∈ numeralKeys) :
    (normDigit c).isDigit = true := by
  revert c h
  decide

theorem normDigit_idem (c : Char) : normDigit (normDigit c) = normDigit c := by
  by_cases hc : c ∈ numeralKeys
  · revert c hc
    decide
  · rw [normDigit_eq_of_not_mem hc]
    exact normDigit_eq_of_not_mem hc

theorem normDigit_not_key_of_isDigit {c : Char} (h : c.isDigit = true) :
    c ∉ numeralKeys := by
  intro hmem
  have : ∀ k ∈ numeralKeys, k.isDigit = false := by decide
  rw [this c hmem] at h
  exact Bool.false_ne_true h

/-! ## C7 — the digit normalizer -/

/-- C7: `normalize_digits` is total (by type) and idempotent; every character
outside the two mapped numeral sets passes through unchanged (both
per-character and for whole strings of unmapped characters), and the empty
string maps to the empty string. -/
theorem C7_normalize_digits :
    (∀ s : List Char, normalize_digits (normalize_digits s) = normalize_digits s)
    ∧ (∀ c : Char, c ∉ numeralKeys → normDigit c = c)
    ∧ (∀ s : List Char, (∀ c ∈ s, c ∉ numeralKeys) → normalize_digits s = s)
    ∧ normalize_digits [] = [] := by
  refine ⟨fun s => ?_, fun c h => normDigit_eq_of_not_mem h, fun s h => ?_, rfl⟩
  · simp only [normalize_digits, List.map_map]
    exact List.map_congr_left (fun c _ => normDigit_idem c)
  · simp only [normalize_digits]
    rw [List.map_congr_left (fun c hc => normDigit_eq_of_not_mem (h c hc))]
    exact List.map_id s

/-- C7 witness: the unmapped character `x` passes through unchanged. -/
theorem C7_witness : normDigit 'x' = 'x' :=
  C7_normalize_digits.2.1 'x' (by decide)

/-! ## C10 — equivalence of the two engine copies -/

/-- C10: the extraction engine of `process.py` and the extraction engine of
`process_logic.py` agree on every input, both for `extract_national_id` and
for `normalize_digits` (their Python bodies differ only in comments and
`print` calls). -/
theorem C10_engines_equivalent :
    (∀ s : List Char, extract_national_id_process s = extract_national_id s)
    ∧ (∀ s : List Char, normalize_digits_process s = normalize_digits s) :=
  ⟨fun _ => rfl, fun _ => rfl⟩

/-! ## C4 — orientation corrector on empty content -/

/-- C4 counterexample: the `process.py` copy of
`detect_rotation_and_correct_image` (cited by the claim alongside the
`process_logic.py` copy) does invoke the OCR text-detection probe on empty
image content — it lacks the empty-content guard. -/
theorem C4_counterexample :
    (detect_rotation_and_correct_image_process (some [])
      { hasRegions := false, hasVertices := false, tiltExceeds45 := false,
        saveOk := false }).probeCalled = true := rfl

/-- C4 amended: the `process_logic.py` copy of
`detect_rotation_and_correct_image` never invokes the probe on empty image
content and returns the original reference unchanged, whatever the probe
would have answered; the `process.py` copy invokes the probe even on empty
content. -/
theorem C4_amended :
    ∀ probe : VisionProbe,
      detect_rotation_and_correct_image_logic (some []) probe =
        { probeCalled := false, result := RotResult.original } :=
  fun _ => rfl

/-! ## C3 — cleanup of the corrected artifact -/

/-- C3 counterexample: when orientation correction produced a distinct
corrected artifact and reading it back fails, `detect_text_from_image`
returns without deleting the corrected artifact. -/
theorem C3_counterexample :
    (detect_text_from_image
      { rotContent := some [1],
        probe := { hasRegions := true, hasVertices := true,
                   tiltExceeds45 := true, saveOk := true },
        readBack := none, ocrError := false, ocrText := some ['x'],
        correctedExists := true }).removedCorrected = false
    ∧ (detect_rotation_and_correct_image_logic (some [1])
        { hasRegions := true, hasVertices := true, tiltExceeds45 := true,
          saveOk := true }).result = RotResult.corrected :=
  ⟨rfl, rfl⟩

/-- C3 amended: `detect_text_from_image` deletes the corrected artifact only
on the fully successful path — the corrected file was read back with
non-empty content, the OCR service reported no error, the rotation step
produced a distinct artifact, and the file still exists.  On the read-failure,
empty-content and OCR-error exit paths the corrected artifact is never
deleted. -/
theorem C3_amended :
    ∀ env : TextDetectEnv,
      (detect_text_from_image env).removedCorrected =
        ((match env.readBack with
          | some content => !content.isEmpty
          | none => false) &&
         !env.ocrError &&
         decide ((detect_rotation_and_correct_image_logic env.rotContent
                    env.probe).result = RotResult.corrected) &&
         env.correctedExists) := by
  intro env
  unfold detect_text_from_image
  cases hr : env.readBack with
  | none => simp
  | some content =>
    by_cases hc : content = []
    · subst hc
      simp
    · by_cases he : env.ocrError
      · simp [hc, he]
      · simp only [Bool.not_eq_true] at he
        have hie : content.isEmpty = false := by
          simpa [List.isEmpty_iff] using hc
        simp [hc, he, hie, Bool.and_comm, Bool.and_assoc, Bool.and_left_comm]

/-! ## C8 — batch verification pipeline -/

theorem process_getElem? (rows : List RowInput) (i : Nat) :
    (process_from_excel_links rows)[i]? =
      rows[i]?.map (fun r => processRow i r) := by
  simp only [process_from_excel_links, List.getElem?_map, List.getElem?_enum,
    Option.map_map]
  rfl

/-- C8: the batch loop of `process_from_excel_links` emits exactly one result
per input row, in input order (the `i`-th result is the processed `i`-th
row); on download failure for a row the result carries the
`"Download Failed: ..."` marker with `is_match = False`, and the loop keeps
going — the later rows' results are unaffected. -/
theorem C8_batch_pipeline :
    ∀ rows : List RowInput,
      (process_from_excel_links rows).length = rows.length
      ∧ (∀ i, i < rows.length →
          (process_from_excel_links rows).getD i blankResult =
            processRow i (rows.getD i blankRow))
      ∧ (∀ i msg, i < rows.length →
          (rows.getD i blankRow).download = DownloadOutcome.failure msg →
          ((process_from_excel_links rows).getD i blankResult).extracted =
              some ("Download Failed: ".data ++ msg)
          ∧ ((process_from_excel_links rows).getD i blankResult).isMatch
              = false) := by
  intro rows
  have hget : ∀ i, i < rows.length →
      (process_from_excel_links rows).getD i blankResult =
        processRow i (rows.getD i blankRow) := by
    intro i hi
    rw [List.getD_eq_getElem?_getD, List.getD_eq_getElem?_getD,
      process_getElem?, List.getElem?_eq_getElem hi]
    rfl
  refine ⟨by simp [process_from_excel_links], hget, ?_⟩
  intro i msg hi hdl
  rw [hget i hi]
  unfold processRow
  rw [hdl]
  exact ⟨rfl, rfl⟩

/-- C8 witness: a one-row batch whose download fails yields the failure
marker and no match. -/
theorem C8_witness :
    ((process_from_excel_links
        [{ rowId := ['1'], nationalityId := ['2'],
           download := DownloadOutcome.failure ['e'],
           ocrText := none }]).getD 0 blankResult).extracted =
      some ("Download Failed: ".data ++ ['e'])
    ∧ ((process_from_excel_links
        [{ rowId := ['1'], nationalityId := ['2'],
           download := DownloadOutcome.failure ['e'],
           ocrText := none }]).getD 0 blankResult).isMatch = false :=
  (C8_batch_pipeline _).2.2 0 ['e'] (by decide) rfl

/-! ## C9 — name extraction -/

theorem findIdx?_none_of_all {α : Type} {p : α → Bool} {l : List α}
    (h : ∀ x ∈ l, p x = false) : l.findIdx? p = none :=
  List.findIdx?_eq_none_iff.mpr h

theorem nameCandidate_sound {lines : List (List Char)} {i : Nat}
    {v : List Char} (h : nameCandidate lines i = some v) :
    isValidName v = true ∧ v = pyStrip (lines.getD i []) := by
  unfold nameCandidate at h
  by_cases h1 : i < lines.length
  · rw [if_pos h1] at h
    by_cases h2 : isValidName (pyStrip (lines.getD i []))
    · rw [if_pos h2] at h
      cases h
      exact ⟨h2, rfl⟩
    · rw [if_neg h2] at h
      exact absurd h (by simp)
  · rw [if_neg h1] at h
    exact absurd h (by simp)

theorem isValidName_no_digit {v : List Char} (h : isValidName v = true) :
    v.all (fun c => !pyDigit c) = true := by
  unfold isValidName at h
  have hany : v.any pyDigit = false := by
    cases hx : v.any pyDigit
    · rfl
    · rw [hx] at h
      simp at h
  rw [List.all_eq_true]
  intro c hc
  cases hd : pyDigit c
  · rfl
  · exact absurd (List.any_eq_true.mpr ⟨c, hc, hd⟩)
      (by rw [hany]; exact Bool.false_ne_true)

theorem text_ne_nil_of_header {text : List Char} {h : Nat}
    (hidx : (splitNl text).findIdx?
      (fun ln => containsPhrase headerPhrase ln) = some h) :
    text ≠ [] := by
  intro he
  subst he
  have h0 : (splitNl ([] : List Char)).findIdx?
      (fun ln => containsPhrase headerPhrase ln) = none := by decide
  rw [h0] at hidx
  exact Option.noConfusion hidx

/-- C9: `extract_full_name` returns `none` whenever no line contains the
header phrase; whenever it returns a name, that name passes the validity
test (2–4 tokens, Arabic-block-plus-whitespace characters, no digit — so any
candidate line containing a digit is rejected) and is the stripped text of
the first or second line after the first header line; and conversely the
first qualifying candidate is returned: when the line right after the
header strips to a valid name that name is returned, and when that line is
absent or invalid while the second line strips to a valid name, the second
line's name is returned. -/
theorem C9_extract_full_name :
    ∀ text : List Char,
      ((∀ ln ∈ splitNl text, containsPhrase headerPhrase ln = false) →
        extract_full_name text = none)
      ∧ (∀ v, extract_full_name text = some v →
          isValidName v = true
          ∧ v.all (fun c => !pyDigit c) = true
          ∧ ∃ h, (splitNl text).findIdx? (fun ln => containsPhrase headerPhrase ln)
                = some h
              ∧ (v = pyStrip ((splitNl text).getD (h + 1) [])
                 ∨ v = pyStrip ((splitNl text).getD (h + 2) [])))
      ∧ (∀ h, (splitNl text).findIdx? (fun ln => containsPhrase headerPhrase ln)
              = some h →
          h + 1 < (splitNl text).length →
          isValidName (pyStrip ((splitNl text).getD (h + 1) [])) = true →
          extract_full_name text =
            some (pyStrip ((splitNl text).getD (h + 1) [])))
      ∧ (∀ h, (splitNl text).findIdx? (fun ln => containsPhrase headerPhrase ln)
              = some h →
          (h + 1 < (splitNl text).length →
            isValidName (pyStrip ((splitNl text).getD (h + 1) [])) = false) →
          h + 2 < (splitNl text).length →
          isValidName (pyStrip ((splitNl text).getD (h + 2) [])) = true →
          extract_full_name text =
            some (pyStrip ((splitNl text).getD (h + 2) []))) := by
  intro text
  refine ⟨?_, ?_, ?_, ?_⟩
  · intro hall
    unfold extract_full_name
    by_cases ht : text = []
    · rw [if_pos ht]
    · rw [if_neg ht, findIdx?_none_of_all hall]
  · intro v hv
    unfold extract_full_name at hv
    by_cases ht : text = []
    · rw [if_pos ht] at hv
      exact absurd hv (by simp)
    · rw [if_neg ht] at hv
      cases hidx : (splitNl text).findIdx? (fun ln => containsPhrase headerPhrase ln) with
      | none =>
        rw [hidx] at hv
        exact Option.noConfusion hv
      | some h =>
        rw [hidx] at hv
        have hv2 : (match nameCandidate (splitNl text) (h + 1) with
            | some c => some c
            | none => nameCandidate (splitNl text) (h + 2)) = some v := hv
        cases hc1 : nameCandidate (splitNl text) (h + 1) with
        | some c =>
          rw [hc1] at hv2
          cases hv2
          obtain ⟨hval, heq⟩ := nameCandidate_sound hc1
          exact ⟨hval, isValidName_no_digit hval, h, rfl, Or.inl heq⟩
        | none =>
          rw [hc1] at hv2
          obtain ⟨hval, heq⟩ := nameCandidate_sound hv2
          exact ⟨hval, isValidName_no_digit hval, h, rfl, Or.inr heq⟩
  · intro h hidx hlt hval
    have ht := text_ne_nil_of_header hidx
    unfold extract_full_name
    rw [if_neg ht, hidx]
    have hc1 : nameCandidate (splitNl text) (h + 1) =
        some (pyStrip ((splitNl text).getD (h + 1) [])) := by
      unfold nameCandidate
      rw [if_pos hlt, if_pos hval]
    show (match nameCandidate (splitNl text) (h + 1) with
          | some c => some c
          | none => nameCandidate (splitNl text) (h + 2)) =
        some (pyStrip ((splitNl text).getD (h + 1) []))
    rw [hc1]
  · intro h hidx hfail hlt2 hval2
    have ht := text_ne_nil_of_header hidx
    unfold extract_full_name
    rw [if_neg ht, hidx]
    have hc1 : nameCandidate (splitNl text) (h + 1) = none := by
      unfold nameCandidate
      by_cases hlt1 : h + 1 < (splitNl text).length
      · rw [if_pos hlt1,
          if_neg (by rw [hfail hlt1]; exact Bool.false_ne_true)]
      · rw [if_neg hlt1]
    have hc2 : nameCandidate (splitNl text) (h + 2) =
        some (pyStrip ((splitNl text).getD (h + 2) [])) := by
      unfold nameCandidate
      rw [if_pos hlt2, if_pos hval2]
    show (match nameCandidate (splitNl text) (h + 1) with
          | some c => some c
          | none => nameCandidate (splitNl text) (h + 2)) =
        some (pyStrip ((splitNl text).getD (h + 2) []))
    rw [hc1, hc2]

/-- C9 witness: a text with no header line yields no name, and in a text
whose first line after the header contains Arabic-Indic digits that line is
rejected and the second line's name is returned. -/
theorem C9_witness :
    extract_full_name "hello".data = none
    ∧ extract_full_name "بطاقة تحقيق الشخصية\nمحمد ١٢٣\nمحمد احمد".data =
        some "محمد احمد".data :=
  ⟨(C9_extract_full_name "hello".data).1 (by decide),
   (C9_extract_full_name
       "بطاقة تحقيق الشخصية\nمحمد ١٢٣\nمحمد احمد".data).2.2.2 0
     (by decide) (fun _ => by decide) (by decide) (by decide)⟩

/-! ## Lemmas about the regex building blocks -/

theorem takeDigits_sound :
    ∀ (n : Nat) (l ds r : List Char), takeDigits n l = some (ds, r) →
      l = ds ++ r ∧ ds.length = n ∧ ds.all pyDigit = true := by
  intro n
  induction n with
  | zero =>
    intro l ds r h
    simp only [takeDigits] at h
    cases h
    exact ⟨rfl, rfl, rfl⟩
  | succ n ih =>
    intro l ds r h
    cases l with
    | nil => simp [takeDigits] at h
    | cons c rest =>
      simp only [takeDigits] at h
      by_cases hd : pyDigit c
      · rw [if_pos hd] at h
        cases ht : takeDigits n rest with
        | none =>
          rw [ht] at h
          exact absurd h (by simp)
        | some p =>
          obtain ⟨ds2, r2⟩ := p
          rw [ht] at h
          have h2 : (c :: ds2, r2) = (ds, r) := Option.some.inj h
          have hds : ds = c :: ds2 := (Prod.ext_iff.mp h2).1.symm
          have hr : r = r2 := (Prod.ext_iff.mp h2).2.symm
          obtain ⟨he, hl, ha⟩ := ih rest ds2 r2 ht
          rw [hds, hr]
          exact ⟨by rw [he]; rfl, by simp [hl],
            by simp [List.all_cons, hd, ha]⟩
      · rw [if_neg hd] at h
        exact absurd h (by simp)

theorem takeDigits_complete :
    ∀ (ds r : List Char), ds.all pyDigit = true →
      takeDigits ds.length (ds ++ r) = some (ds, r) := by
  intro ds
  induction ds with
  | nil =>
    intro r _
    rfl
  | cons c ds ih =>
    intro r hall
    simp only [List.all_cons, Bool.and_eq_true] at hall
    simp only [List.length_cons, List.cons_append, takeDigits, List.append_eq]
    rw [if_pos hall.1, ih r hall.2]

theorem takeDigits_unique {n : Nat} {ds r ds' r' : List Char}
    (h : takeDigits n (ds' ++ r') = some (ds, r))
    (hlen : ds'.length = n) (hall : ds'.all pyDigit = true) :
    ds = ds' ∧ r = r' := by
  have hc := takeDigits_complete ds' r' hall
  rw [hlen] at hc
  rw [hc] at h
  cases h
  exact ⟨rfl, rfl⟩

theorem boundaryOk_nil {pw : Bool} (h : pw = false) : boundaryOk pw [] := by
  simpa [boundaryOk] using h

theorem boundaryOk_nil_inv {pw : Bool} (h : boundaryOk pw []) : pw = false := by
  simpa [boundaryOk] using h

theorem boundaryOk_cons {pw : Bool} {c : Char} {a : List Char}
    (h : boundaryOk (pyWordChar c) a) : boundaryOk pw (c :: a) := by
  cases a with
  | nil => simpa [boundaryOk] using h
  | cons x a' => simpa [boundaryOk, List.getLast?_cons_cons] using h

theorem boundaryOk_cons_inv {pw : Bool} {c : Char} {a : List Char}
    (h : boundaryOk pw (c :: a)) : boundaryOk (pyWordChar c) a := by
  cases a with
  | nil => simpa [boundaryOk] using h
  | cons x a' => simpa [boundaryOk, List.getLast?_cons_cons] using h

theorem stripDatesAux_nil (fuel : Nat) (pw : Bool) :
    stripDatesAux fuel pw [] = [] := by
  cases fuel <;> cases pw <;> rfl

theorem stripDatesAux_sublist :
    ∀ (fuel : Nat) (pw : Bool) (l : List Char),
      List.Sublist (stripDatesAux fuel pw l) l := by
  intro fuel
  induction fuel with
  | zero =>
    intro pw l
    cases l with
    | nil =>
      rw [stripDatesAux_nil]
    | cons c rest => cases pw <;> exact List.Sublist.refl _
  | succ fuel ih =>
    intro pw l
    cases l with
    | nil =>
      rw [stripDatesAux_nil]
    | cons c rest =>
      cases pw with
      | true =>
        simp only [stripDatesAux]
        exact List.Sublist.cons₂ c (ih _ rest)
      | false =>
        simp only [stripDatesAux]
        cases hd : dateMatchLen (c :: rest) with
        | some k =>
          exact List.Sublist.cons c
            ((ih true _).trans (List.drop_sublist _ _))
        | none => exact List.Sublist.cons₂ c (ih _ rest)

theorem stripDatesAux_fuel :
    ∀ (f g : Nat) (pw : Bool) (l : List Char), l.length ≤ f → l.length ≤ g →
      stripDatesAux f pw l = stripDatesAux g pw l := by
  intro f
  induction f with
  | zero =>
    intro g pw l hf _
    have hl : l = [] := List.length_eq_zero.mp (Nat.le_zero.mp hf)
    subst hl
    rw [stripDatesAux_nil, stripDatesAux_nil]
  | succ f ih =>
    intro g pw l hf hg
    cases l with
    | nil => rw [stripDatesAux_nil, stripDatesAux_nil]
    | cons c rest =>
      cases g with
      | zero =>
        exact absurd hg (by simp)
      | succ g =>
        have hf' : rest.length ≤ f := by
          simp only [List.length_cons] at hf
          omega
        have hg' : rest.length ≤ g := by
          simp only [List.length_cons] at hg
          omega
        cases pw with
        | true =>
          simp only [stripDatesAux]
          rw [ih g (pyWordChar c) rest hf' hg']
        | false =>
          simp only [stripDatesAux]
          cases hd : dateMatchLen (c :: rest) with
          | some k =>
            have hdrop : (List.drop (k - 1) rest).length ≤ rest.length := by
              rw [List.length_drop]
              omega
            exact ih g true _ (hdrop.trans hf') (hdrop.trans hg')
          | none => rw [ih g (pyWordChar c) rest hf' hg']

theorem stripDates_cons_eq (pw : Bool) (l : List Char) :
    stripDatesAux l.length pw l = stripDatesAux (l.length + 1) pw l :=
  stripDatesAux_fuel _ _ _ _ (Nat.le_refl _) (Nat.le_succ _)

/-! ## Lemmas about digit runs and Strategies B and C -/

theorem runsByAux_sound :
    ∀ (p : Char → Bool) (fuel : Nat) (l r : List Char),
      r ∈ runsByAux p fuel l → r ≠ [] ∧ r.all p = true ∧ ∀ c ∈ r, c ∈ l := by
  intro p fuel
  induction fuel with
  | zero =>
    intro l r h
    cases l with
    | nil => simp [runsByAux] at h
    | cons c rest => simp [runsByAux] at h
  | succ fuel ih =>
    intro l r h
    cases l with
    | nil => simp [runsByAux] at h
    | cons c rest =>
      simp only [runsByAux] at h
      by_cases hp : p c
      · rw [if_pos hp] at h
        rcases List.mem_cons.mp h with h1 | h1
        · subst h1
          refine ⟨by simp, ?_, ?_⟩
          · rw [List.all_cons, Bool.and_eq_true]
            refine ⟨hp, ?_⟩
            rw [List.all_eq_true]
            intro x hx
            exact List.mem_takeWhile_imp hx
          · intro x hx
            rcases List.mem_cons.mp hx with h2 | h2
            · exact h2 ▸ List.mem_cons_self _ _
            · exact List.mem_cons_of_mem _ (List.takeWhile_subset _ h2)
        · obtain ⟨hne, hall, hmem⟩ := ih (rest.dropWhile p) r h1
          exact ⟨hne, hall,
            fun x hx => List.mem_cons_of_mem _ (List.dropWhile_subset _ (hmem x hx))⟩
      · rw [if_neg hp] at h
        obtain ⟨hne, hall, hmem⟩ := ih rest r h
        exact ⟨hne, hall, fun x hx => List.mem_cons_of_mem _ (hmem x hx)⟩

theorem runsBy_sound {p : Char → Bool} {l r : List Char}
    (h : r ∈ runsBy p l) : r ≠ [] ∧ r.all p = true ∧ ∀ c ∈ r, c ∈ l :=
  runsByAux_sound p l.length l r h

theorem strategyB_sound :
    ∀ (rs : List (List Char)) (v : List Char), strategyB rs = some v →
      ∃ pre a b post, rs = pre ++ a :: b :: post ∧ a.length = 7 ∧
        b.length = 7 ∧ v = a ++ b ∧ head23 v = true := by
  intro rs
  induction rs with
  | nil => intro v h; simp [strategyB] at h
  | cons a rest ih =>
    intro v h
    cases rest with
    | nil => simp [strategyB] at h
    | cons b rest2 =>
      simp only [strategyB] at h
      by_cases h7 : a.length = 7 ∧ b.length = 7
      · rw [if_pos h7] at h
        by_cases hh : head23 (a ++ b)
        · rw [if_pos hh] at h
          cases h
          exact ⟨[], a, b, rest2, rfl, h7.1, h7.2, rfl, hh⟩
        · rw [if_neg hh] at h
          obtain ⟨pre, a2, b2, post, heq, h1, h2, h3, h4⟩ := ih v h
          exact ⟨a :: pre, a2, b2, post, by rw [heq]; rfl, h1, h2, h3, h4⟩
      · rw [if_neg h7] at h
        obtain ⟨pre, a2, b2, post, heq, h1, h2, h3, h4⟩ := ih v h
        exact ⟨a :: pre, a2, b2, post, by rw [heq]; rfl, h1, h2, h3, h4⟩

theorem searchEmbedded_sound :
    ∀ (l v : List Char), searchEmbedded l = some v →
      matches14 v ∧ ∃ a b, l = a ++ v ++ b ∧
        (∀ a2 v2 b2, l = a2 ++ v2 ++ b2 → matches14 v2 →
          a.length ≤ a2.length) := by
  intro l
  induction l with
  | nil => intro v h; simp [searchEmbedded] at h
  | cons c rest ih =>
    intro v h
    simp only [searchEmbedded] at h
    by_cases hc : c = '2' ∨ c = '3'
    · rw [if_pos hc] at h
      cases ht : takeDigits 13 rest with
      | some p =>
        obtain ⟨ds, r2⟩ := p
        rw [ht] at h
        cases h
        obtain ⟨he, hl, ha⟩ := takeDigits_sound 13 rest ds r2 ht
        refine ⟨⟨c, ds, rfl, hc, hl, ha⟩, [], r2, by rw [he]; rfl, ?_⟩
        intro a2 v2 b2 _ _
        exact Nat.zero_le _
      | none =>
        rw [ht] at h
        obtain ⟨hm, a, b, heq, hmin⟩ := ih v h
        refine ⟨hm, c :: a, b, by rw [heq]; rfl, ?_⟩
        intro a2 v2 b2 h2 hm2
        cases a2 with
        | nil =>
          obtain ⟨c2, ds2, hv2, hc2, hl2, ha2⟩ := hm2
          rw [hv2] at h2
          simp only [List.nil_append, List.cons_append] at h2
          have hrest : rest = ds2 ++ b2 := (List.cons.injEq .. ▸ h2).2
          have : takeDigits 13 rest = some (ds2, b2) := by
            rw [hrest]
            rw [← hl2]
            exact takeDigits_complete ds2 b2 ha2
          rw [this] at ht
          exact absurd ht (by simp)
        | cons x a2' =>
          simp only [List.cons_append, List.cons.injEq] at h2
          have := hmin a2' v2 b2 h2.2 hm2
          simp only [List.length_cons]
          omega
    · rw [if_neg hc] at h
      obtain ⟨hm, a, b, heq, hmin⟩ := ih v h
      refine ⟨hm, c :: a, b, by rw [heq]; rfl, ?_⟩
      intro a2 v2 b2 h2 hm2
      cases a2 with
      | nil =>
        obtain ⟨c2, ds2, hv2, hc2, hl2, ha2⟩ := hm2
        rw [hv2] at h2
        simp only [List.nil_append, List.cons_append, List.cons.injEq] at h2
        exact absurd (h2.1 ▸ hc2) hc
      | cons x a2' =>
        simp only [List.cons_append, List.cons.injEq] at h2
        have := hmin a2' v2 b2 h2.2 hm2
        simp only [List.length_cons]
        omega

theorem strategyC_sound :
    ∀ (rs : List (List Char)) (v : List Char), strategyC rs = some v →
      ∃ pre r post, rs = pre ++ r :: post ∧ 14 < r.length ∧
        searchEmbedded r = some v ∧
        ∀ r2 ∈ pre, ¬(14 < r2.length ∧ (searchEmbedded r2).isSome = true) := by
  intro rs
  induction rs with
  | nil => intro v h; simp [strategyC] at h
  | cons r rest ih =>
    intro v h
    simp only [strategyC] at h
    by_cases hlen : 14 < r.length
    · rw [if_pos hlen] at h
      cases hs : searchEmbedded r with
      | some w =>
        rw [hs] at h
        cases h
        exact ⟨[], r, rest, rfl, hlen, hs, by simp⟩
      | none =>
        rw [hs] at h
        obtain ⟨pre, r2, post, heq, h1, h2, h3⟩ := ih v h
        refine ⟨r :: pre, r2, post, by rw [heq]; rfl, h1, h2, ?_⟩
        intro r3 hr3
        rcases List.mem_cons.mp hr3 with h4 | h4
        · subst h4
          rintro ⟨-, hsome⟩
          rw [hs] at hsome
          simp at hsome
        · exact h3 r3 h4
    · rw [if_neg hlen] at h
      obtain ⟨pre, r2, post, heq, h1, h2, h3⟩ := ih v h
      refine ⟨r :: pre, r2, post, by rw [heq]; rfl, h1, h2, ?_⟩
      intro r3 hr3
      rcases List.mem_cons.mp hr3 with h4 | h4
      · subst h4
        rintro ⟨hbig, -⟩
        exact hlen hbig
      · exact h3 r3 h4

theorem strategyC_none_of_short :
    ∀ rs : List (List Char), (∀ r ∈ rs, r.length ≤ 14) → strategyC rs = none := by
  intro rs
  induction rs with
  | nil => intro _; rfl
  | cons r rest ih =>
    intro h
    simp only [strategyC]
    rw [if_neg (by have := h r (List.mem_cons_self _ _); omega)]
    exact ih (fun r2 h2 => h r2 (List.mem_cons_of_mem _ h2))

/-! ## Lemmas about the Strategy A scanner -/

theorem findStandalone14_sound :
    ∀ (l : List Char) (pw : Bool) (v : List Char),
      findStandalone14 pw l = some v →
      matches14 v ∧ ∃ a b, l = a ++ v ++ b ∧ boundaryOk pw a ∧
        bAfter b = true ∧
        (∀ a2 v2 b2, l = a2 ++ v2 ++ b2 → matches14 v2 → boundaryOk pw a2 →
          bAfter b2 = true → a.length ≤ a2.length) := by
  intro l
  induction l with
  | nil =>
    intro pw v h
    cases pw <;> simp [findStandalone14] at h
  | cons c rest ih =>
    intro pw v h
    cases pw with
    | true =>
      have h2 : findStandalone14 (pyWordChar c) rest = some v := h
      obtain ⟨hm, a, b, heq, hbd, hba, hmin⟩ := ih (pyWordChar c) v h2
      refine ⟨hm, c :: a, b, by rw [heq]; rfl, boundaryOk_cons hbd, hba, ?_⟩
      intro a2 v2 b2 hdec hm2 hbd2 hba2
      cases a2 with
      | nil => exact absurd (boundaryOk_nil_inv hbd2) (by simp)
      | cons x a3 =>
        simp only [List.cons_append, List.cons.injEq] at hdec
        have hb3 : boundaryOk (pyWordChar c) a3 := by
          rw [hdec.1]
          exact boundaryOk_cons_inv hbd2
        have := hmin a3 v2 b2 hdec.2 hm2 hb3 hba2
        simp only [List.length_cons]
        omega
    | false =>
      simp only [findStandalone14] at h
      by_cases hc : c = '2' ∨ c = '3'
      · rw [if_pos hc] at h
        cases ht : takeDigits 13 rest with
        | some p =>
          obtain ⟨ds, rest2⟩ := p
          rw [ht] at h
          have h3 : (if bAfter rest2 = true then some (c :: ds)
              else findStandalone14 (pyWordChar c) rest) = some v := h
          by_cases hb : bAfter rest2 = true
          · rw [if_pos hb] at h3
            cases h3
            obtain ⟨he, hl, ha⟩ := takeDigits_sound 13 rest ds rest2 ht
            exact ⟨⟨c, ds, rfl, hc, hl, ha⟩, [], rest2, by rw [he]; rfl,
              boundaryOk_nil rfl, hb,
              fun a2 v2 b2 _ _ _ _ => Nat.zero_le _⟩
          · rw [if_neg hb] at h3
            obtain ⟨hm, a, b, heq, hbd, hba, hmin⟩ := ih (pyWordChar c) v h3
            refine ⟨hm, c :: a, b, by rw [heq]; rfl, boundaryOk_cons hbd,
              hba, ?_⟩
            intro a2 v2 b2 hdec hm2 hbd2 hba2
            cases a2 with
            | nil =>
              obtain ⟨c2, ds2, hv2, hc2, hl2, ha2⟩ := hm2
              rw [hv2] at hdec
              simp only [List.nil_append, List.cons_append,
                List.cons.injEq] at hdec
              have hu := takeDigits_unique (hdec.2 ▸ ht) hl2 ha2
              exact absurd (hu.2.symm ▸ hba2) hb
            | cons x a3 =>
              simp only [List.cons_append, List.cons.injEq] at hdec
              have hb3 : boundaryOk (pyWordChar c) a3 := by
                rw [hdec.1]
                exact boundaryOk_cons_inv hbd2
              have := hmin a3 v2 b2 hdec.2 hm2 hb3 hba2
              simp only [List.length_cons]
              omega
        | none =>
          rw [ht] at h
          obtain ⟨hm, a, b, heq, hbd, hba, hmin⟩ := ih (pyWordChar c) v h
          refine ⟨hm, c :: a, b, by rw [heq]; rfl, boundaryOk_cons hbd,
            hba, ?_⟩
          intro a2 v2 b2 hdec hm2 hbd2 hba2
          cases a2 with
          | nil =>
            obtain ⟨c2, ds2, hv2, hc2, hl2, ha2⟩ := hm2
            rw [hv2] at hdec
            simp only [List.nil_append, List.cons_append,
              List.cons.injEq] at hdec
            have htd : takeDigits 13 rest = some (ds2, b2) := by
              rw [hdec.2, ← hl2]
              exact takeDigits_complete ds2 b2 ha2
            rw [htd] at ht
            exact absurd ht (by simp)
          | cons x a3 =>
            simp only [List.cons_append, List.cons.injEq] at hdec
            have hb3 : boundaryOk (pyWordChar c) a3 := by
              rw [hdec.1]
              exact boundaryOk_cons_inv hbd2
            have := hmin a3 v2 b2 hdec.2 hm2 hb3 hba2
            simp only [List.length_cons]
            omega
      · rw [if_neg hc] at h
        obtain ⟨hm, a, b, heq, hbd, hba, hmin⟩ := ih (pyWordChar c) v h
        refine ⟨hm, c :: a, b, by rw [heq]; rfl, boundaryOk_cons hbd,
          hba, ?_⟩
        intro a2 v2 b2 hdec hm2 hbd2 hba2
        cases a2 with
        | nil =>
          obtain ⟨c2, ds2, hv2, hc2, hl2, ha2⟩ := hm2
          rw [hv2] at hdec
          simp only [List.nil_append, List.cons_append,
            List.cons.injEq] at hdec
          exact absurd (by rw [hdec.1]; exact hc2) hc
        | cons x a3 =>
          simp only [List.cons_append, List.cons.injEq] at hdec
          have hb3 : boundaryOk (pyWordChar c) a3 := by
            rw [hdec.1]
            exact boundaryOk_cons_inv hbd2
          have := hmin a3 v2 b2 hdec.2 hm2 hb3 hba2
          simp only [List.length_cons]
          omega

theorem findStandalone14_complete :
    ∀ (l : List Char) (pw : Bool), StandaloneWitness pw l →
      (findStandalone14 pw l).isSome = true := by
  intro l
  induction l with
  | nil =>
    intro pw h
    obtain ⟨a, v, b, heq, hm, -, -⟩ := h
    obtain ⟨c, ds, hv, -, -, -⟩ := hm
    rw [hv] at heq
    exact absurd heq (by simp)
  | cons c rest ih =>
    intro pw h
    obtain ⟨a, v, b, heq, hm, hbd, hba⟩ := h
    cases a with
    | nil =>
      obtain ⟨c2, ds, hv, hc2, hl, ha⟩ := hm
      rw [hv] at heq
      simp only [List.nil_append, List.cons_append, List.cons.injEq] at heq
      have hpw : pw = false := boundaryOk_nil_inv hbd
      subst hpw
      simp only [findStandalone14]
      rw [if_pos (by rw [heq.1]; exact hc2)]
      have htd : takeDigits 13 rest = some (ds, b) := by
        rw [heq.2, ← hl]
        exact takeDigits_complete ds b ha
      rw [htd]
      show (if bAfter b = true then some (c :: ds)
            else findStandalone14 (pyWordChar c) rest).isSome = true
      rw [if_pos hba]
      rfl
    | cons x a3 =>
      simp only [List.cons_append, List.cons.injEq] at heq
      have hwit : StandaloneWitness (pyWordChar c) rest :=
        ⟨a3, v, b, heq.2, hm,
          by rw [heq.1]; exact boundaryOk_cons_inv hbd, hba⟩
      have hrec := ih (pyWordChar c) hwit
      cases pw with
      | true => exact hrec
      | false =>
        simp only [findStandalone14]
        by_cases hc : c = '2' ∨ c = '3'
        · rw [if_pos hc]
          cases ht : takeDigits 13 rest with
          | some p =>
            obtain ⟨ds, rest2⟩ := p
            show (if bAfter rest2 = true then some (c :: ds)
                  else findStandalone14 (pyWordChar c) rest).isSome = true
            by_cases hb : bAfter rest2 = true
            · rw [if_pos hb]
              rfl
            · rw [if_neg hb]
              exact hrec
          | none =>
            exact hrec
        · rw [if_neg hc]
          exact hrec

/-! ## Lemmas about `extract_national_id`'s cascade -/

theorem extract_eq (text : List Char) (h : text ≠ []) :
    extract_national_id text =
      match findStandalone14 false (cleanedOf text) with
      | some v => some v
      | none =>
        match strategyB (digitRuns (cleanedOf text)) with
        | some v => some v
        | none => strategyC (digitRuns (normalize_digits text)) := by
  unfold extract_national_id cleanedOf
  rw [if_neg h]

theorem extract_nil : extract_national_id [] = none := rfl

theorem cleanedOf_nil : cleanedOf [] = [] := rfl

theorem extract_cases {text v : List Char}
    (h : extract_national_id text = some v) :
    findStandalone14 false (cleanedOf text) = some v
    ∨ (findStandalone14 false (cleanedOf text) = none ∧
       strategyB (digitRuns (cleanedOf text)) = some v)
    ∨ (findStandalone14 false (cleanedOf text) = none ∧
       strategyB (digitRuns (cleanedOf text)) = none ∧
       strategyC (digitRuns (normalize_digits text)) = some v) := by
  have htext : text ≠ [] := by
    intro he
    rw [he, extract_nil] at h
    exact Option.noConfusion h
  rw [extract_eq text htext] at h
  cases hA : findStandalone14 false (cleanedOf text) with
  | some w =>
    rw [hA] at h
    have h2 : some w = some v := h
    cases h2
    exact Or.inl rfl
  | none =>
    rw [hA] at h
    cases hB : strategyB (digitRuns (cleanedOf text)) with
    | some w =>
      rw [hB] at h
      have h2 : some w = some v := h
      cases h2
      exact Or.inr (Or.inl ⟨rfl, rfl⟩)
    | none =>
      rw [hB] at h
      exact Or.inr (Or.inr ⟨rfl, rfl, h⟩)

theorem cleanedOf_subset {text : List Char} {c : Char}
    (h : c ∈ cleanedOf text) : c ∈ normalize_digits text := by
  unfold cleanedOf stripDates at h
  exact (stripDatesAux_sublist _ _ _).subset h

theorem mem_normalize {text : List Char} {c : Char}
    (h : c ∈ normalize_digits text) : ∃ c0 ∈ text, c = normDigit c0 := by
  unfold normalize_digits at h
  obtain ⟨c0, hc0, he⟩ := List.mem_map.mp h
  exact ⟨c0, hc0, he.symm⟩

theorem normDigit_western {text : List Char} {c : Char}
    (hmem : c ∈ normalize_digits text) (hdig : pyDigit c = true)
    (hyp : ∀ x ∈ text, pyDigit x = true → x.isDigit = true ∨ x ∈ numeralKeys) :
    c.isDigit = true := by
  obtain ⟨c0, hc0, he⟩ := mem_normalize hmem
  by_cases hk : c0 ∈ numeralKeys
  · rw [he]
    exact normDigit_isDigit_of_mem hk
  · have he2 : c = c0 := by rw [he]; exact normDigit_eq_of_not_mem hk
    rw [he2] at hdig ⊢
    rcases hyp c0 hc0 hdig with h1 | h1
    · exact h1
    · exact absurd h1 hk

theorem matches14_props {v : List Char} (h : matches14 v) :
    v.length = 14 ∧ head23 v = true ∧ v.all pyDigit = true := by
  obtain ⟨c, ds, hv, hc, hl, ha⟩ := h
  subst hv
  refine ⟨by simp [hl], ?_, ?_⟩
  · rcases hc with h1 | h1 <;> rw [h1] <;> rfl
  · have hcd : pyDigit c = true := by
      rcases hc with h1 | h1 <;> rw [h1] <;> decide
    simp [List.all_cons, hcd, ha]

theorem matches14_of_parts {v : List Char} (hlen : v.length = 14)
    (hh : head23 v = true) (hall : v.all pyDigit = true) : matches14 v := by
  cases v with
  | nil => exact absurd hh (by simp [head23])
  | cons c ds =>
    refine ⟨c, ds, rfl, ?_, by simpa using hlen, ?_⟩
    · unfold head23 at hh
      simp only [Bool.or_eq_true, beq_iff_eq] at hh
      exact hh
    · simp only [List.all_cons, Bool.and_eq_true] at hall
      exact hall.2

/-! ## C1 — shape of every extracted value -/

/-- C1 counterexample: Python's `\d` matches any Unicode decimal digit, so a
standalone run of `2` followed by thirteen Devanagari digits (which the
numeral map does not touch) is returned by Strategy A even though it is not a
string of Western digits. -/
theorem C1_counterexample :
    extract_national_id (' ' :: '2' :: (List.replicate 13 '०' ++ [' '])) =
      some ('2' :: List.replicate 13 '०')
    ∧ ('2' :: List.replicate 13 '०').all Char.isDigit = false := by
  constructor
  · decide
  · decide

/-- C1 amended: whenever `extract_national_id` returns a value, that value
has exactly 14 characters, starts with `2` or `3`, and consists of Unicode
decimal digits (Python's `\d`); it consists of 14 Western digits whenever
every digit character of the input is Western or one of the twenty mapped
Arabic numerals. -/
theorem C1_amended :
    ∀ (text v : List Char), extract_national_id text = some v →
      (v.length = 14 ∧ head23 v = true ∧ v.all pyDigit = true)
      ∧ ((∀ x ∈ text, pyDigit x = true → x.isDigit = true ∨ x ∈ numeralKeys) →
          v.all Char.isDigit = true) := by
  intro text v h
  have key : matches14 v ∧ ∀ c ∈ v, c ∈ normalize_digits text := by
    rcases extract_cases h with hA | ⟨-, hB⟩ | ⟨-, -, hC⟩
    · obtain ⟨hm, a, b, heq, -, -, -⟩ := findStandalone14_sound _ _ _ hA
      refine ⟨hm, fun c hc => cleanedOf_subset ?_⟩
      rw [heq]
      simp [hc]
    · obtain ⟨pre, a, b, post, heq, h7a, h7b, hvab, hh⟩ := strategyB_sound _ _ hB
      have hamem : a ∈ digitRuns (cleanedOf text) := by
        rw [heq]; simp
      have hbmem : b ∈ digitRuns (cleanedOf text) := by
        rw [heq]; simp
      obtain ⟨-, haall, hamem2⟩ := runsBy_sound hamem
      obtain ⟨-, hball, hbmem2⟩ := runsBy_sound hbmem
      constructor
      · refine matches14_of_parts ?_ (hvab ▸ hh) ?_
        · rw [hvab, List.length_append, h7a, h7b]
        · rw [hvab, List.all_append, haall, hball]
          rfl
      · intro c hc
        rw [hvab] at hc
        rcases List.mem_append.mp hc with h1 | h1
        · exact cleanedOf_subset (hamem2 c h1)
        · exact cleanedOf_subset (hbmem2 c h1)
    · obtain ⟨pre, r, post, heq, hlen, hse, -⟩ := strategyC_sound _ _ hC
      obtain ⟨hm, a2, b2, heq2, -⟩ := searchEmbedded_sound _ _ hse
      have hrmem : r ∈ digitRuns (normalize_digits text) := by
        rw [heq]; simp
      obtain ⟨-, -, hrmem2⟩ := runsBy_sound hrmem
      refine ⟨hm, fun c hc => hrmem2 c ?_⟩
      rw [heq2]
      simp [hc]
  obtain ⟨hm, hprov⟩ := key
  obtain ⟨hlen, hh, hall⟩ := matches14_props hm
  refine ⟨⟨hlen, hh, hall⟩, fun hyp => ?_⟩
  rw [List.all_eq_true]
  intro c hc
  exact normDigit_western (hprov c hc) (List.all_eq_true.mp hall c hc) hyp

/-- C1 witness: on an input whose digits are all Western, the extracted value
is all Western digits. -/
theorem C1_witness : "29901011234567".data.all Char.isDigit = true :=
  (C1_amended "x 29901011234567".data "29901011234567".data (by decide)).2
    (by decide)

/-! ## C2 — Strategy A -/

/-- C2 counterexample: in `"a29901011234567 "` the run of exactly 14 digits
starting with `2` is bounded by the non-digit characters `a` and a space,
yet `extract_national_id` returns nothing: Python's `\b` requires a
non-word character, and the letter `a` is a word character, so Strategy A
rejects the run (and Strategies B and C do not apply). -/
theorem C2_counterexample :
    extract_national_id ('a' :: "29901011234567 ".data) = none
    ∧ Char.isDigit 'a' = false ∧ Char.isDigit ' ' = false := by
  refine ⟨by decide, by decide, by decide⟩

/-- C2 amended: Strategy A returns the first run of exactly 14 digits in the
date-stripped text whose first digit is 2 or 3 and that is bounded by
non-word characters (not letter, digit, or underscore) on both sides;
whenever such a word-bounded run exists Strategy A succeeds and its result is
what `extract_national_id` returns, no later strategy running; and any
returned match is the leftmost such run. -/
theorem C2_amended :
    ∀ text : List Char,
      (∀ v, findStandalone14 false (cleanedOf text) = some v →
        extract_national_id text = some v)
      ∧ (StandaloneWitness false (cleanedOf text) →
          ∃ v, findStandalone14 false (cleanedOf text) = some v ∧
            extract_national_id text = some v)
      ∧ (∀ v, findStandalone14 false (cleanedOf text) = some v →
          matches14 v ∧ ∃ a b, cleanedOf text = a ++ v ++ b ∧
            boundaryOk false a ∧ bAfter b = true ∧
            ∀ a2 v2 b2, cleanedOf text = a2 ++ v2 ++ b2 → matches14 v2 →
              boundaryOk false a2 → bAfter b2 = true →
                a.length ≤ a2.length) := by
  intro text
  have part1 : ∀ v, findStandalone14 false (cleanedOf text) = some v →
      extract_national_id text = some v := by
    intro v hfind
    have htext : text ≠ [] := by
      intro he
      rw [he, cleanedOf_nil] at hfind
      exact Option.noConfusion (hfind.symm.trans rfl)
    rw [extract_eq text htext, hfind]
  refine ⟨part1, ?_, fun v hv => findStandalone14_sound _ _ _ hv⟩
  intro hwit
  have hsome := findStandalone14_complete _ _ hwit
  obtain ⟨v, hv⟩ := Option.isSome_iff_exists.mp hsome
  exact ⟨v, hv, part1 v hv⟩

/-- C2 witness: a bare well-formed ID is found by Strategy A and returned. -/
theorem C2_witness :
    extract_national_id "29901011234567".data =
      some "29901011234567".data :=
  (C2_amended "29901011234567".data).1 "29901011234567".data (by decide)

/-! ## C6 — Strategy C -/

/-- C6: when Strategies A and B both fail, `extract_national_id` evaluates to
Strategy C applied to the digit runs of the numeral-normalized text without
date-stripping; Strategy C succeeds only by finding, inside the first digit
run that is strictly longer than 14 characters and contains one, the leftmost
embedded 14-character substring starting with 2 or 3; and it never fires when
every digit run has length at most 14. -/
theorem C6_strategyC :
    (∀ text : List Char,
      findStandalone14 false (cleanedOf text) = none →
      strategyB (digitRuns (cleanedOf text)) = none →
      extract_national_id text =
        strategyC (digitRuns (normalize_digits text)))
    ∧ (∀ rs v, strategyC rs = some v →
        ∃ pre r post, rs = pre ++ r :: post ∧ 14 < r.length ∧
          searchEmbedded r = some v ∧
          ∀ r2 ∈ pre, ¬(14 < r2.length ∧ (searchEmbedded r2).isSome = true))
    ∧ (∀ l v, searchEmbedded l = some v →
        matches14 v ∧ ∃ a b, l = a ++ v ++ b ∧
          ∀ a2 v2 b2, l = a2 ++ v2 ++ b2 → matches14 v2 →
            a.length ≤ a2.length)
    ∧ (∀ rs, (∀ r ∈ rs, r.length ≤ 14) → strategyC rs = none) := by
  refine ⟨?_, strategyC_sound, searchEmbedded_sound, strategyC_none_of_short⟩
  intro text hA hB
  by_cases htext : text = []
  · subst htext
    rfl
  · rw [extract_eq text htext, hA, hB]

/-- C6 witness: a digit run of length exactly 14 starting with `2` does not
trigger Strategy C. -/
theorem C6_witness : strategyC [('2' :: List.replicate 13 '1')] = none :=
  C6_strategyC.2.2.2 [('2' :: List.replicate 13 '1')] (by decide)

/-! ## C5 — date stripping -/

theorem pyWordChar_of_pyDigit {c : Char} (h : pyDigit c = true) :
    pyWordChar c = true := by
  unfold pyWordChar
  rw [h, Bool.true_or]

theorem digit_not_bAfter {x : Char} {t : List Char}
    (h : bAfter (x :: t) = true) : pyDigit x = false := by
  cases hd : pyDigit x
  · rfl
  · exact absurd h (by simp [bAfter, pyWordChar_of_pyDigit hd])

theorem ne_slash_of_pyDigit {c : Char} (h : pyDigit c = true) : c ≠ '/' := by
  intro he
  rw [he] at h
  exact absurd h (by decide)

theorem nil_ne_append_slash (a b : List Char) : ¬ ([] = a ++ '/' :: b) := by
  intro h
  cases a <;> simp at h

theorem getLast?_drop_eq {l : List Char} {n : Nat}
    (h : List.drop n l ≠ []) : (List.drop n l).getLast? = l.getLast? := by
  conv_rhs => rw [← List.take_append_drop n l]
  rw [List.getLast?_append_of_ne_nil _ h]

theorem takeDigits_one {c : Char} {r : List Char} (h : pyDigit c = true) :
    takeDigits 1 (c :: r) = some ([c], r) := by
  simp [takeDigits, h]

theorem takeDigits_two {c d : Char} {r : List Char} (h1 : pyDigit c = true)
    (h2 : pyDigit d = true) :
    takeDigits 2 (c :: d :: r) = some ([c, d], r) := by
  simp [takeDigits, h1, h2]

/-- Every successful attempt of the optional-day suffix splits the text into
an all-digit-or-slash token of the reported length followed by a word
boundary; the token is empty or starts with `/`, and every `/` inside it is
followed by a valid day group. -/
theorem dateOptTail_tok :
    ∀ (l : List Char) (m : Nat), dateOptTail l = some m →
      ∃ tok r, l = tok ++ r ∧ tok.length = m ∧
        tok.all (fun c => pyDigit c || decide (c = '/')) = true ∧
        bAfter r = true ∧
        (tok = [] ∨ tok.head? = some '/') ∧
        (∀ a b, tok = a ++ '/' :: b → grpOk (b ++ r)) := by
  intro l m h
  cases l with
  | nil =>
    have h2 : some 0 = some m := h
    cases h2
    exact ⟨[], [], rfl, rfl, rfl, rfl, Or.inl rfl,
      fun a b hab => absurd hab (nil_ne_append_slash a b)⟩
  | cons c t =>
    cases t with
    | nil =>
      have h3 : (if bAfter [c] = true then some 0 else (none : Option Nat))
          = some m := h
      by_cases hb : bAfter [c] = true
      · rw [if_pos hb] at h3
        have h4 : some 0 = some m := h3
        cases h4
        exact ⟨[], [c], rfl, rfl, rfl, hb, Or.inl rfl,
          fun a b hab => absurd hab (nil_ne_append_slash a b)⟩
      · rw [if_neg hb] at h3
        exact absurd h3 (by simp)
    | cons d1 rest =>
      simp only [dateOptTail] at h
      by_cases hc : (c == '/' && pyDigit d1) = true
      · rw [if_pos hc] at h
        rw [Bool.and_eq_true, beq_iff_eq] at hc
        obtain ⟨hceq, hd1⟩ := hc
        subst hceq
        cases rest with
        | nil =>
          have h2 : some 2 = some m := h
          cases h2
          refine ⟨['/', d1], [], rfl, rfl, ?_, rfl, Or.inr rfl, ?_⟩
          · simp [List.all_cons, hd1]
          · intro a b hab
            cases a with
            | nil =>
              rw [List.nil_append] at hab
              injection hab with h1 h2
              subst h2
              exact ⟨1, [d1], [], Or.inl rfl, takeDigits_one hd1, Or.inl rfl⟩
            | cons x a2 =>
              rw [List.cons_append] at hab
              injection hab with h1 h2
              cases a2 with
              | nil =>
                rw [List.nil_append] at h2
                injection h2 with h3 h4
                exact absurd h3 (ne_slash_of_pyDigit hd1)
              | cons y a3 =>
                rw [List.cons_append] at h2
                injection h2 with h3 h4
                exact absurd h4 (nil_ne_append_slash a3 b)
        | cons d2 rest2 =>
          replace h : (if pyDigit d2 = true then
              (if bAfter rest2 = true then some 3
               else if bAfter ('/' :: d1 :: d2 :: rest2) = true then some 0
               else none)
            else
              (if bAfter (d2 :: rest2) = true then some 2
               else if bAfter ('/' :: d1 :: d2 :: rest2) = true then some 0
               else (none : Option Nat))) = some m := h
          by_cases hd2 : pyDigit d2 = true
          · rw [if_pos hd2] at h
            by_cases hb : bAfter rest2 = true
            · rw [if_pos hb] at h
              have h2 : some 3 = some m := h
              cases h2
              refine ⟨['/', d1, d2], rest2, rfl, rfl, ?_, hb, Or.inr rfl, ?_⟩
              · simp [List.all_cons, hd1, hd2]
              · intro a b hab
                cases a with
                | nil =>
                  rw [List.nil_append] at hab
                  injection hab with h1 h2
                  subst h2
                  exact ⟨2, [d1, d2], rest2, Or.inr rfl,
                    takeDigits_two hd1 hd2, Or.inl hb⟩
                | cons x a2 =>
                  rw [List.cons_append] at hab
                  injection hab with h1 h2
                  cases a2 with
                  | nil =>
                    rw [List.nil_append] at h2
                    injection h2 with h3 h4
                    exact absurd h3 (ne_slash_of_pyDigit hd1)
                  | cons y a3 =>
                    rw [List.cons_append] at h2
                    injection h2 with h3 h4
                    cases a3 with
                    | nil =>
                      rw [List.nil_append] at h4
                      injection h4 with h5 h6
                      exact absurd h5 (ne_slash_of_pyDigit hd2)
                    | cons z a4 =>
                      rw [List.cons_append] at h4
                      injection h4 with h5 h6
                      exact absurd h6 (nil_ne_append_slash a4 b)
            · rw [if_neg hb] at h
              have hb2 : bAfter ('/' :: d1 :: d2 :: rest2) = true := rfl
              rw [if_pos hb2] at h
              have h2 : some 0 = some m := h
              cases h2
              exact ⟨[], '/' :: d1 :: d2 :: rest2, rfl, rfl, rfl, hb2,
                Or.inl rfl,
                fun a b hab => absurd hab (nil_ne_append_slash a b)⟩
          · rw [if_neg hd2] at h
            by_cases hb : bAfter (d2 :: rest2) = true
            · rw [if_pos hb] at h
              have h2 : some 2 = some m := h
              cases h2
              refine ⟨['/', d1], d2 :: rest2, rfl, rfl, ?_, hb,
                Or.inr rfl, ?_⟩
              · simp [List.all_cons, hd1]
              · intro a b hab
                cases a with
                | nil =>
                  rw [List.nil_append] at hab
                  injection hab with h1 h2
                  subst h2
                  exact ⟨1, [d1], d2 :: rest2, Or.inl rfl,
                    takeDigits_one hd1, Or.inl hb⟩
                | cons x a2 =>
                  rw [List.cons_append] at hab
                  injection hab with h1 h2
                  cases a2 with
                  | nil =>
                    rw [List.nil_append] at h2
                    injection h2 with h3 h4
                    exact absurd h3 (ne_slash_of_pyDigit hd1)
                  | cons y a3 =>
                    rw [List.cons_append] at h2
                    injection h2 with h3 h4
                    exact absurd h4 (nil_ne_append_slash a3 b)
            · rw [if_neg hb] at h
              have hb2 : bAfter ('/' :: d1 :: d2 :: rest2) = true := rfl
              rw [if_pos hb2] at h
              have h2 : some 0 = some m := h
              cases h2
              exact ⟨[], '/' :: d1 :: d2 :: rest2, rfl, rfl, rfl, hb2,
                Or.inl rfl,
                fun a b hab => absurd hab (nil_ne_append_slash a b)⟩
      · rw [if_neg hc] at h
        by_cases hb : bAfter (c :: d1 :: rest) = true
        · rw [if_pos hb] at h
          have h2 : some 0 = some m := h
          cases h2
          exact ⟨[], c :: d1 :: rest, rfl, rfl, rfl, hb, Or.inl rfl,
            fun a b hab => absurd hab (nil_ne_append_slash a b)⟩
        · rw [if_neg hb] at h
          exact absurd h (by simp)

/-- Every successful month/day-suffix attempt splits the text into a
nonempty all-digit-or-slash token followed by a word boundary; the token
starts with a digit group satisfying `grpOk`, and every `/` inside it is
followed by a valid day group. -/
theorem dateAfterSlash_tok :
    ∀ (l : List Char) (m : Nat), dateAfterSlash l = some m →
      ∃ tok r, l = tok ++ r ∧ tok.length = m ∧
        tok.all (fun c => pyDigit c || decide (c = '/')) = true ∧
        bAfter r = true ∧ 1 ≤ m ∧ grpOk (tok ++ r) ∧
        (∀ a b, tok = a ++ '/' :: b → grpOk (b ++ r)) := by
  intro l m h
  cases l with
  | nil => exact Option.noConfusion h
  | cons d1 rest =>
    simp only [dateAfterSlash] at h
    by_cases h1 : pyDigit d1 = true
    · rw [if_pos h1] at h
      cases rest with
      | nil =>
        have h2 : some 1 = some m := h
        cases h2
        refine ⟨[d1], [], rfl, rfl, ?_, rfl, Nat.le_refl 1, ?_, ?_⟩
        · simp [List.all_cons, h1]
        · exact ⟨1, [d1], [], Or.inl rfl, takeDigits_one h1, Or.inl rfl⟩
        · intro a b hab
          cases a with
          | nil =>
            rw [List.nil_append] at hab
            injection hab with h2 h3
            exact absurd h2 (ne_slash_of_pyDigit h1)
          | cons x a2 =>
            rw [List.cons_append] at hab
            injection hab with h2 h3
            exact absurd h3 (nil_ne_append_slash a2 b)
      | cons d2 rest2 =>
        replace h : (if pyDigit d2 = true then
            (match dateOptTail rest2 with
             | some k => some (2 + k)
             | none => none)
          else
            (match dateOptTail (d2 :: rest2) with
             | some k => some (1 + k)
             | none => (none : Option Nat))) = some m := h
        by_cases h2 : pyDigit d2 = true
        · rw [if_pos h2] at h
          cases ho : dateOptTail rest2 with
          | none =>
            rw [ho] at h
            exact Option.noConfusion h
          | some k =>
            rw [ho] at h
            have h3 : some (2 + k) = some m := h
            cases h3
            obtain ⟨tok, r, he, hl, hall, hb, hhead, hslash⟩ :=
              dateOptTail_tok rest2 k ho
            refine ⟨d1 :: d2 :: tok, r, ?_, ?_, ?_, hb, by omega, ?_, ?_⟩
            · rw [List.cons_append, List.cons_append, ← he]
            · simp only [List.length_cons, hl]
              omega
            · simp [List.all_cons, h1, h2, hall]
            · refine ⟨2, [d1, d2], tok ++ r, Or.inr rfl,
                takeDigits_two h1 h2, ?_⟩
              rcases hhead with htok | htok
              · subst htok
                exact Or.inl hb
              · right
                cases tok with
                | nil => exact Option.noConfusion htok
                | cons z t2 =>
                  have h5 : z = '/' := Option.some.inj htok
                  subst h5
                  rfl
            · intro a b hab
              cases a with
              | nil =>
                rw [List.nil_append] at hab
                injection hab with h4 h5
                exact absurd h4 (ne_slash_of_pyDigit h1)
              | cons x a2 =>
                rw [List.cons_append] at hab
                injection hab with h4 h5
                cases a2 with
                | nil =>
                  rw [List.nil_append] at h5
                  injection h5 with h6 h7
                  exact absurd h6 (ne_slash_of_pyDigit h2)
                | cons y a3 =>
                  rw [List.cons_append] at h5
                  injection h5 with h6 h7
                  exact hslash a3 b h7
        · rw [if_neg h2] at h
          cases ho : dateOptTail (d2 :: rest2) with
          | none =>
            rw [ho] at h
            exact Option.noConfusion h
          | some k =>
            rw [ho] at h
            have h3 : some (1 + k) = some m := h
            cases h3
            obtain ⟨tok, r, he, hl, hall, hb, hhead, hslash⟩ :=
              dateOptTail_tok (d2 :: rest2) k ho
            refine ⟨d1 :: tok, r, ?_, ?_, ?_, hb, by omega, ?_, ?_⟩
            · rw [List.cons_append, ← he]
            · simp only [List.length_cons, hl]
              omega
            · simp [List.all_cons, h1, hall]
            · refine ⟨1, [d1], tok ++ r, Or.inl rfl, takeDigits_one h1, ?_⟩
              rcases hhead with htok | htok
              · subst htok
                exact Or.inl hb
              · right
                cases tok with
                | nil => exact Option.noConfusion htok
                | cons z t2 =>
                  have h5 : z = '/' := Option.some.inj htok
                  subst h5
                  rfl
            · intro a b hab
              cases a with
              | nil =>
                rw [List.nil_append] at hab
                injection hab with h4 h5
                exact absurd h4 (ne_slash_of_pyDigit h1)
              | cons x a2 =>
                rw [List.cons_append] at hab
                injection hab with h4 h5
                exact hslash a2 b h5
    · rw [if_neg h1] at h
      exact absurd h (by simp)

/-- Every date match starts with four digits and a slash. -/
theorem dateMatchLen_head :
    ∀ (l : List Char) (k : Nat), dateMatchLen l = some k →
      ∃ y1 y2 y3 y4 rest, l = y1 :: y2 :: y3 :: y4 :: '/' :: rest ∧
        pyDigit y1 = true ∧ pyDigit y2 = true ∧ pyDigit y3 = true ∧
        pyDigit y4 = true := by
  intro l k h
  cases l with
  | nil => exact Option.noConfusion h
  | cons y1 t1 =>
    cases t1 with
    | nil => exact Option.noConfusion h
    | cons y2 t2 =>
      cases t2 with
      | nil => exact Option.noConfusion h
      | cons y3 t3 =>
        cases t3 with
        | nil => exact Option.noConfusion h
        | cons y4 t4 =>
          cases t4 with
          | nil => exact Option.noConfusion h
          | cons s rest =>
            simp only [dateMatchLen] at h
            by_cases hc : (pyDigit y1 && pyDigit y2 && pyDigit y3 &&
                pyDigit y4 && (s == '/')) = true
            · rw [if_pos hc] at h
              simp only [Bool.and_eq_true, beq_iff_eq] at hc
              obtain ⟨⟨⟨⟨h1, h2⟩, h3⟩, h4⟩, h5⟩ := hc
              subst h5
              exact ⟨y1, y2, y3, y4, rest, rfl, h1, h2, h3, h4⟩
            · rw [if_neg hc] at h
              exact absurd h (by simp)

/-- Every date match splits its text into an all-digit-or-slash token of the
reported length (at least six characters) followed by a word boundary, and
every `/` inside the token is followed by a valid month or day group. -/
theorem dateMatchLen_tok :
    ∀ (l : List Char) (k : Nat), dateMatchLen l = some k →
      ∃ tok r, l = tok ++ r ∧ tok.length = k ∧
        tok.all (fun c => pyDigit c || decide (c = '/')) = true ∧
        bAfter r = true ∧ 6 ≤ k ∧
        (∀ a b, tok = a ++ '/' :: b → grpOk (b ++ r)) := by
  intro l k h
  obtain ⟨y1, y2, y3, y4, rest, he, h1, h2, h3, h4⟩ := dateMatchLen_head l k h
  subst he
  simp only [dateMatchLen] at h
  have hc : (pyDigit y1 && pyDigit y2 && pyDigit y3 && pyDigit y4 &&
      ('/' == '/')) = true := by
    simp [h1, h2, h3, h4]
  rw [if_pos hc] at h
  cases ha : dateAfterSlash rest with
  | none =>
    rw [ha] at h
    exact Option.noConfusion h
  | some m =>
    rw [ha] at h
    have h5 : some (5 + m) = some k := h
    cases h5
    obtain ⟨tok, r, hre, hl, hall, hb, hm1, hgrp, hslash⟩ :=
      dateAfterSlash_tok rest m ha
    refine ⟨y1 :: y2 :: y3 :: y4 :: '/' :: tok, r, ?_, ?_, ?_, hb,
      by omega, ?_⟩
    · rw [hre]
      simp only [List.cons_append]
    · simp only [List.length_cons, hl]
      omega
    · simp [List.all_cons, h1, h2, h3, h4, hall]
    · intro a b hab
      cases a with
      | nil =>
        rw [List.nil_append] at hab
        injection hab with g1 g2
        exact absurd g1 (ne_slash_of_pyDigit h1)
      | cons x1 a1 =>
        rw [List.cons_append] at hab
        injection hab with g1 g2
        cases a1 with
        | nil =>
          rw [List.nil_append] at g2
          injection g2 with g3 g4
          exact absurd g3 (ne_slash_of_pyDigit h2)
        | cons x2 a2 =>
          rw [List.cons_append] at g2
          injection g2 with g3 g4
          cases a2 with
          | nil =>
            rw [List.nil_append] at g4
            injection g4 with g5 g6
            exact absurd g5 (ne_slash_of_pyDigit h3)
          | cons x3 a3 =>
            rw [List.cons_append] at g4
            injection g4 with g5 g6
            cases a3 with
            | nil =>
              rw [List.nil_append] at g6
              injection g6 with g7 g8
              exact absurd g7 (ne_slash_of_pyDigit h4)
            | cons x4 a4 =>
              rw [List.cons_append] at g6
              injection g6 with g7 g8
              cases a4 with
              | nil =>
                rw [List.nil_append] at g8
                injection g8 with g9 g10
                subst g10
                exact hgrp
              | cons x5 a5 =>
                rw [List.cons_append] at g8
                injection g8 with g9 g10
                exact hslash a5 b g10

/-- Crossing lemma: a date match attempted inside a text `s ++ rest`, where
`s` ends in a non-word character and `rest` itself carries a date match at
its head, can never extend to or past the end of `s` — the boundary
character would have to be a digit (impossible: digits are word characters)
or a `/` whose following day group starts with the four year digits of
`rest` (impossible: three consecutive digits never fit a 1–2 digit group
terminated by a boundary or slash). -/
theorem dateMatch_no_cross :
    ∀ (s rest : List Char) (x : Char) (m k : Nat),
      s.getLast? = some x → pyWordChar x = false →
      dateMatchLen rest = some m →
      dateMatchLen (s ++ rest) = some k → k < s.length := by
  intro s rest x m k hlast hx hm hk
  by_contra hge
  push_neg at hge
  obtain ⟨tok, r, he, hl, hall, hb, hk6, hslash⟩ := dateMatchLen_tok _ k hk
  have hsle : s.length ≤ tok.length := by rw [hl]; exact hge
  have hstake : tok.take s.length = s := by
    have h1 : (s ++ rest).take s.length = s := List.take_left s rest
    rw [he] at h1
    rw [List.take_append_of_le_length hsle] at h1
    exact h1
  have hsnil : s ≠ [] := by
    intro h0
    rw [h0] at hlast
    exact Option.noConfusion hlast
  have hmem : x ∈ tok := by
    have h2 : x ∈ s := List.mem_of_mem_getLast? hlast
    rw [← hstake] at h2
    exact List.take_subset _ _ h2
  have hxd : (pyDigit x || decide (x = '/')) = true := by
    rw [List.all_eq_true] at hall
    exact hall x hmem
  rw [Bool.or_eq_true] at hxd
  cases hxd with
  | inl hdx =>
    rw [pyWordChar_of_pyDigit hdx] at hx
    exact Bool.noConfusion hx
  | inr hsx =>
    rw [decide_eq_true_iff] at hsx
    subst hsx
    have hsplit : s = s.dropLast ++ ['/'] := by
      have h3 := List.dropLast_append_getLast hsnil
      have h4 : s.getLast hsnil = '/' := by
        have h5 := List.getLast?_eq_getLast s hsnil
        rw [hlast] at h5
        injection h5 with h6
        exact h6.symm
      rw [h4] at h3
      exact h3.symm
    have htok : tok = s.dropLast ++ '/' :: tok.drop s.length := by
      have h7 : tok = s ++ tok.drop s.length := by
        conv_lhs => rw [← List.take_append_drop s.length tok]
        rw [hstake]
      calc tok = s ++ tok.drop s.length := h7
        _ = (s.dropLast ++ ['/']) ++ tok.drop s.length := by rw [← hsplit]
        _ = s.dropLast ++ '/' :: tok.drop s.length := by
            rw [List.append_assoc]
            rfl
    have hgrp2 : grpOk (tok.drop s.length ++ r) := hslash _ _ htok
    have hdr : tok.drop s.length ++ r = rest := by
      have h8 : (tok ++ r).drop s.length = tok.drop s.length ++ r :=
        List.drop_append_of_le_length hsle
      rw [← he] at h8
      rw [List.drop_left] at h8
      exact h8.symm
    rw [hdr] at hgrp2
    obtain ⟨y1, y2, y3, y4, R, hre, hy1, hy2, hy3, hy4⟩ :=
      dateMatchLen_head rest m hm
    obtain ⟨e, ds, rest2, he12, htd, hdisj⟩ := hgrp2
    subst hre
    cases he12 with
    | inl h1e =>
      subst h1e
      rw [takeDigits_one hy1] at htd
      injection htd with htd2
      injection htd2 with hds hrest2
      subst hrest2
      cases hdisj with
      | inl hb2 =>
        simp [bAfter, pyWordChar_of_pyDigit hy2] at hb2
      | inr hh =>
        have h9 : some y2 = some '/' := hh
        injection h9 with h10
        exact absurd h10 (ne_slash_of_pyDigit hy2)
    | inr h2e =>
      subst h2e
      rw [takeDigits_two hy1 hy2] at htd
      injection htd with htd2
      injection htd2 with hds hrest2
      subst hrest2
      cases hdisj with
      | inl hb2 =>
        simp [bAfter, pyWordChar_of_pyDigit hy3] at hb2
      | inr hh =>
        have h9 : some y3 = some '/' := hh
        injection h9 with h10
        exact absurd h10 (ne_slash_of_pyDigit hy3)

theorem boundaryOk_last {pw : Bool} {c : Char} {a : List Char}
    (h : boundaryOk pw (c :: a)) :
    ∃ x, (c :: a).getLast? = some x ∧ pyWordChar x = false := by
  unfold boundaryOk at h
  cases hg : (c :: a).getLast? with
  | none => exact absurd (List.getLast?_eq_none_iff.mp hg) (by simp)
  | some x =>
    rw [hg] at h
    exact ⟨x, rfl, h⟩

/-- Main removal lemma: when the remaining text is a boundary-respecting
prefix `pre` followed by a date token `d` (matched as a whole, with a word
boundary after it) and a remainder `post`, the scan deletes `d` entirely:
the output is some sublist of `pre` (dates inside `pre` are themselves
removed) followed by the scan of `post`. -/
theorem stripAux_removes :
    ∀ (fuel : Nat) (pre : List Char) (pw : Bool) (d post : List Char),
      boundaryOk pw pre →
      dateMatchLen (d ++ post) = some d.length →
      (pre ++ (d ++ post)).length ≤ fuel →
      ∃ out, List.Sublist out pre ∧
        stripDatesAux fuel pw (pre ++ (d ++ post)) =
          out ++ stripDatesAux post.length true post := by
  intro fuel
  induction fuel with
  | zero =>
    intro pre pw d post hbd hd hlen
    exfalso
    obtain ⟨tok, r, he, hl, hall, hb, hk6, hslash⟩ := dateMatchLen_tok _ _ hd
    simp only [List.length_append] at hlen
    omega
  | succ fuel ih =>
    intro pre pw d post hbd hd hlen
    cases pre with
    | nil =>
      have hpw : pw = false := boundaryOk_nil_inv hbd
      subst hpw
      obtain ⟨tok, r, he, hl, hall, hb, hk6, hslash⟩ := dateMatchLen_tok _ _ hd
      cases d with
      | nil =>
        exfalso
        simp only [List.length_nil] at hk6
        omega
      | cons c d2 =>
        have hd2 : dateMatchLen (c :: (d2 ++ post)) = some (d2.length + 1) := by
          have h9 := hd
          simp only [List.cons_append, List.length_cons] at h9
          exact h9
        simp only [List.nil_append, List.cons_append]
        refine ⟨[], List.Sublist.refl [], ?_⟩
        rw [List.nil_append]
        simp only [stripDatesAux, hd2]
        simp only [Nat.add_sub_cancel]
        rw [List.drop_left]
        exact stripDatesAux_fuel fuel post.length true post
          (by simp only [List.nil_append, List.cons_append, List.length_cons,
                List.length_append] at hlen
              omega)
          (Nat.le_refl _)
    | cons c pre2 =>
      cases pw with
      | true =>
        have hbd2 : boundaryOk (pyWordChar c) pre2 := boundaryOk_cons_inv hbd
        have hlen2 : (pre2 ++ (d ++ post)).length ≤ fuel := by
          simp only [List.cons_append, List.length_cons] at hlen
          omega
        obtain ⟨out, hsub, heq⟩ := ih pre2 (pyWordChar c) d post hbd2 hd hlen2
        refine ⟨c :: out, hsub.cons₂ c, ?_⟩
        simp only [List.cons_append, stripDatesAux, List.append_eq]
        rw [heq]
      | false =>
        cases hmatch : dateMatchLen ((c :: pre2) ++ (d ++ post)) with
        | none =>
          have hbd2 : boundaryOk (pyWordChar c) pre2 := boundaryOk_cons_inv hbd
          have hlen2 : (pre2 ++ (d ++ post)).length ≤ fuel := by
            simp only [List.cons_append, List.length_cons] at hlen
            omega
          obtain ⟨out, hsub, heq⟩ := ih pre2 (pyWordChar c) d post hbd2 hd hlen2
          refine ⟨c :: out, hsub.cons₂ c, ?_⟩
          have hmatch2 : dateMatchLen (c :: (pre2 ++ (d ++ post))) = none := by
            simpa [List.cons_append] using hmatch
          simp only [List.cons_append, stripDatesAux, List.append_eq, hmatch2]
          rw [heq]
        | some k =>
          obtain ⟨x, hx1, hx2⟩ := boundaryOk_last hbd
          have hcross : k < (c :: pre2).length :=
            dateMatch_no_cross (c :: pre2) (d ++ post) x d.length k
              hx1 hx2 hd hmatch
          have hk6 : 6 ≤ k := by
            obtain ⟨tok, r, htk⟩ := dateMatchLen_tok _ k hmatch
            exact htk.2.2.2.2.1
          simp only [List.length_cons] at hcross
          have hmatch2 : dateMatchLen (c :: (pre2 ++ (d ++ post)))
              = some k := by
            simpa [List.cons_append] using hmatch
          simp only [List.cons_append, stripDatesAux, List.append_eq, hmatch2]
          rw [List.drop_append_of_le_length
            (show k - 1 ≤ pre2.length by omega)]
          have hlendrop : (pre2.drop (k - 1)).length
              = pre2.length - (k - 1) := List.length_drop _ _
          have hne : pre2.drop (k - 1) ≠ [] := by
            intro h0
            have h01 := congrArg List.length h0
            rw [hlendrop] at h01
            simp only [List.length_nil] at h01
            omega
          have hlast2 : (pre2.drop (k - 1)).getLast? = some x := by
            rw [getLast?_drop_eq hne]
            cases pre2 with
            | nil =>
              exfalso
              simp only [List.length_nil] at hcross
              omega
            | cons y t =>
              rw [List.getLast?_cons_cons] at hx1
              exact hx1
          have hbd3 : boundaryOk true (pre2.drop (k - 1)) := by
            unfold boundaryOk
            rw [hlast2]
            exact hx2
          have hlen3 : (pre2.drop (k - 1) ++ (d ++ post)).length ≤ fuel := by
            simp only [List.length_append, hlendrop]
            simp only [List.cons_append, List.length_cons,
              List.length_append] at hlen
            omega
          obtain ⟨out, hsub, heq⟩ :=
            ih (pre2.drop (k - 1)) true d post hbd3 hd hlen3
          refine ⟨out, ?_, heq⟩
          exact (hsub.trans (List.drop_sublist _ _)).trans
            (List.sublist_cons_self c pre2)

theorem dateTok_full22 (y1 y2 y3 y4 m1 m2 e1 e2 : Char) (r : List Char)
    (h1 : pyDigit y1 = true) (h2 : pyDigit y2 = true)
    (h3 : pyDigit y3 = true) (h4 : pyDigit y4 = true)
    (h5 : pyDigit m1 = true) (h6 : pyDigit m2 = true)
    (h7 : pyDigit e1 = true) (h8 : pyDigit e2 = true)
    (hr : bAfter r = true) :
    dateMatchLen (y1 :: y2 :: y3 :: y4 :: '/' :: m1 :: m2 :: '/' :: e1 ::
      e2 :: r) = some 10 := by
  have hs : pyDigit '/' = false := by decide
  simp [dateMatchLen, dateAfterSlash, dateOptTail,
    h1, h2, h3, h4, h5, h6, h7, h8, hs, hr]

theorem dateTok_full21 (y1 y2 y3 y4 m1 m2 e1 : Char) (r : List Char)
    (h1 : pyDigit y1 = true) (h2 : pyDigit y2 = true)
    (h3 : pyDigit y3 = true) (h4 : pyDigit y4 = true)
    (h5 : pyDigit m1 = true) (h6 : pyDigit m2 = true)
    (h7 : pyDigit e1 = true) (hr : bAfter r = true) :
    dateMatchLen (y1 :: y2 :: y3 :: y4 :: '/' :: m1 :: m2 :: '/' :: e1 :: r)
      = some 9 := by
  have hs : pyDigit '/' = false := by decide
  cases r with
  | nil =>
    simp [dateMatchLen, dateAfterSlash, dateOptTail,
      h1, h2, h3, h4, h5, h6, h7, hs]
  | cons x t =>
    have hx : pyDigit x = false := digit_not_bAfter hr
    simp [dateMatchLen, dateAfterSlash, dateOptTail,
      h1, h2, h3, h4, h5, h6, h7, hs, hx, hr]

theorem dateTok_full12 (y1 y2 y3 y4 m1 e1 e2 : Char) (r : List Char)
    (h1 : pyDigit y1 = true) (h2 : pyDigit y2 = true)
    (h3 : pyDigit y3 = true) (h4 : pyDigit y4 = true)
    (h5 : pyDigit m1 = true) (h7 : pyDigit e1 = true)
    (h8 : pyDigit e2 = true) (hr : bAfter r = true) :
    dateMatchLen (y1 :: y2 :: y3 :: y4 :: '/' :: m1 :: '/' :: e1 :: e2 :: r)
      = some 9 := by
  have hs : pyDigit '/' = false := by decide
  simp [dateMatchLen, dateAfterSlash, dateOptTail,
    h1, h2, h3, h4, h5, h7, h8, hs, hr]

theorem dateTok_full11 (y1 y2 y3 y4 m1 e1 : Char) (r : List Char)
    (h1 : pyDigit y1 = true) (h2 : pyDigit y2 = true)
    (h3 : pyDigit y3 = true) (h4 : pyDigit y4 = true)
    (h5 : pyDigit m1 = true) (h7 : pyDigit e1 = true)
    (hr : bAfter r = true) :
    dateMatchLen (y1 :: y2 :: y3 :: y4 :: '/' :: m1 :: '/' :: e1 :: r)
      = some 8 := by
  have hs : pyDigit '/' = false := by decide
  cases r with
  | nil =>
    simp [dateMatchLen, dateAfterSlash, dateOptTail,
      h1, h2, h3, h4, h5, h7, hs]
  | cons x t =>
    have hx : pyDigit x = false := digit_not_bAfter hr
    simp [dateMatchLen, dateAfterSlash, dateOptTail,
      h1, h2, h3, h4, h5, h7, hs, hx, hr]

theorem dateTok_month2 (y1 y2 y3 y4 m1 m2 : Char) (r : List Char)
    (h1 : pyDigit y1 = true) (h2 : pyDigit y2 = true)
    (h3 : pyDigit y3 = true) (h4 : pyDigit y4 = true)
    (h5 : pyDigit m1 = true) (h6 : pyDigit m2 = true)
    (hr : bAfter r = true)
    (hno : ∀ x t, r = '/' :: x :: t → pyDigit x = false) :
    dateMatchLen (y1 :: y2 :: y3 :: y4 :: '/' :: m1 :: m2 :: r)
      = some 7 := by
  have hs : pyDigit '/' = false := by decide
  have hsw : pyWordChar '/' = false := by decide
  cases r with
  | nil =>
    simp [dateMatchLen, dateAfterSlash, dateOptTail,
      h1, h2, h3, h4, h5, h6, hs, hr]
  | cons x t =>
    cases t with
    | nil =>
      simp [dateMatchLen, dateAfterSlash, dateOptTail,
        h1, h2, h3, h4, h5, h6, hs, hr]
    | cons z t2 =>
      by_cases hz : x = '/'
      · subst hz
        have hzd : pyDigit z = false := hno z t2 rfl
        simp [dateMatchLen, dateAfterSlash, dateOptTail, bAfter,
          h1, h2, h3, h4, h5, h6, hs, hsw, hzd]
      · simp [dateMatchLen, dateAfterSlash, dateOptTail,
          h1, h2, h3, h4, h5, h6, hs, hz, hr]

theorem dateTok_month1 (y1 y2 y3 y4 m1 : Char) (r : List Char)
    (h1 : pyDigit y1 = true) (h2 : pyDigit y2 = true)
    (h3 : pyDigit y3 = true) (h4 : pyDigit y4 = true)
    (h5 : pyDigit m1 = true) (hr : bAfter r = true)
    (hno : ∀ x t, r = '/' :: x :: t → pyDigit x = false) :
    dateMatchLen (y1 :: y2 :: y3 :: y4 :: '/' :: m1 :: r) = some 6 := by
  have hs : pyDigit '/' = false := by decide
  have hsw : pyWordChar '/' = false := by decide
  cases r with
  | nil =>
    simp [dateMatchLen, dateAfterSlash, dateOptTail, h1, h2, h3, h4, h5]
  | cons x t =>
    have hx : pyDigit x = false := digit_not_bAfter hr
    cases t with
    | nil =>
      simp [dateMatchLen, dateAfterSlash, dateOptTail,
        h1, h2, h3, h4, h5, hx, hr]
    | cons z t2 =>
      by_cases hz : x = '/'
      · subst hz
        have hzd : pyDigit z = false := hno z t2 rfl
        simp [dateMatchLen, dateAfterSlash, dateOptTail, bAfter,
          h1, h2, h3, h4, h5, hx, hsw, hzd]
      · simp [dateMatchLen, dateAfterSlash, dateOptTail,
          h1, h2, h3, h4, h5, hx, hz, hr]

/-- C5: the date-stripping pass removes every whole-token date match.  For
any text `pre ++ d ++ post` where the position after `pre` is a word
boundary (`pre` is empty or ends in a non-word character) and `d` is matched
by the date regex as a whole token (a match of exactly `d`'s length, which
entails the trailing word boundary), the stripped text is a sublist of `pre`
(dates inside `pre` are themselves removed, other characters kept) followed
by the scan of `post`; all the token shapes `YYYY/M`, `YYYY/MM`, `YYYY/M/D`,
`YYYY/M/DD`, `YYYY/MM/D` and `YYYY/MM/DD` over arbitrary Unicode digits are
whole-token matches (the day-less shapes additionally require that no
further `/`-digit group follows, which would extend the match); and on the
spec's concrete example the date is removed and the ID extracted. -/
theorem C5_date_stripping :
    (∀ pre d post : List Char,
        boundaryOk false pre →
        dateMatchLen (d ++ post) = some d.length →
        ∃ out, List.Sublist out pre ∧
          stripDates (pre ++ (d ++ post)) =
            out ++ stripDatesAux post.length true post)
    ∧ (∀ (y1 y2 y3 y4 m1 m2 e1 e2 : Char) (r : List Char),
        pyDigit y1 = true → pyDigit y2 = true → pyDigit y3 = true →
        pyDigit y4 = true → pyDigit m1 = true → pyDigit m2 = true →
        pyDigit e1 = true → pyDigit e2 = true → bAfter r = true →
        dateMatchLen (y1 :: y2 :: y3 :: y4 :: '/' :: m1 :: m2 :: '/' ::
          e1 :: e2 :: r) = some 10)
    ∧ (∀ (y1 y2 y3 y4 m1 m2 e1 : Char) (r : List Char),
        pyDigit y1 = true → pyDigit y2 = true → pyDigit y3 = true →
        pyDigit y4 = true → pyDigit m1 = true → pyDigit m2 = true →
        pyDigit e1 = true → bAfter r = true →
        dateMatchLen (y1 :: y2 :: y3 :: y4 :: '/' :: m1 :: m2 :: '/' ::
          e1 :: r) = some 9)
    ∧ (∀ (y1 y2 y3 y4 m1 e1 e2 : Char) (r : List Char),
        pyDigit y1 = true → pyDigit y2 = true → pyDigit y3 = true →
        pyDigit y4 = true → pyDigit m1 = true →
        pyDigit e1 = true → pyDigit e2 = true → bAfter r = true →
        dateMatchLen (y1 :: y2 :: y3 :: y4 :: '/' :: m1 :: '/' ::
          e1 :: e2 :: r) = some 9)
    ∧ (∀ (y1 y2 y3 y4 m1 e1 : Char) (r : List Char),
        pyDigit y1 = true → pyDigit y2 = true → pyDigit y3 = true →
        pyDigit y4 = true → pyDigit m1 = true → pyDigit e1 = true →
        bAfter r = true →
        dateMatchLen (y1 :: y2 :: y3 :: y4 :: '/' :: m1 :: '/' ::
          e1 :: r) = some 8)
    ∧ (∀ (y1 y2 y3 y4 m1 m2 : Char) (r : List Char),
        pyDigit y1 = true → pyDigit y2 = true → pyDigit y3 = true →
        pyDigit y4 = true → pyDigit m1 = true → pyDigit m2 = true →
        bAfter r = true →
        (∀ x t, r = '/' :: x :: t → pyDigit x = false) →
        dateMatchLen (y1 :: y2 :: y3 :: y4 :: '/' :: m1 :: m2 :: r)
          = some 7)
    ∧ (∀ (y1 y2 y3 y4 m1 : Char) (r : List Char),
        pyDigit y1 = true → pyDigit y2 = true → pyDigit y3 = true →
        pyDigit y4 = true → pyDigit m1 = true → bAfter r = true →
        (∀ x t, r = '/' :: x :: t → pyDigit x = false) →
        dateMatchLen (y1 :: y2 :: y3 :: y4 :: '/' :: m1 :: r) = some 6)
    ∧ extract_national_id "Issued 2019/05/12 ID 29901011234567".data =
        some "29901011234567".data := by
  refine ⟨?_, dateTok_full22, dateTok_full21, dateTok_full12, dateTok_full11,
    dateTok_month2, dateTok_month1, by decide⟩
  intro pre d post hbd hdm
  have h := stripAux_removes (pre ++ (d ++ post)).length pre false d post
    hbd hdm (Nat.le_refl _)
  unfold stripDates
  exact h

/-- C5 witness: whole-token removal applied to a date embedded mid-text,
with a nonempty prefix and suffix. -/
theorem C5_witness :
    ∃ out, List.Sublist out "ID ".data ∧
      stripDates ("ID ".data ++ ("2019/05/12".data ++ " x".data)) =
        out ++ stripDatesAux " x".data.length true " x".data :=
  C5_date_stripping.1 "ID ".data "2019/05/12".data " x".data
    (by show pyWordChar ' ' = false
        decide)
    (by decide)
